import Mathlib

/-
Formal model of the outbound olm session manager (Encryption.js).
The JavaScript source is embedded shallowly: olm session objects are
numeric handles with an explicit allocation counter and a per-handle
free count, storage is an explicit list of session records, the network
and the crypto library are oracles passed in an environment record, and
the concurrent load phase is parameterised by a completion schedule.
-/

/- A small JSON-like value type used to express wire shapes. -/
inductive JVal where
  | str : String → JVal
  | num : Nat → JVal
  | obj : List (String × JVal) → JVal

/- Device identity record, as described by the data model. -/
structure Device where
  userId : String
  deviceId : String
  curve25519Key : String
  ed25519Key : String
deriving DecidableEq

/- One claimed one-time-key entry value: the key itself plus an opaque
signature blob; signature checking is an oracle in the environment. -/
structure KeySection where
  key : String
  signatures : String
deriving DecidableEq

/- Transient per-device container, mirroring class EncryptionTarget.
The live olm session is a numeric handle. -/
structure EncryptionTarget where
  device : Device
  oneTimeKey : Option String
  sessionId : Option String
  session : Option Nat
deriving DecidableEq

def EncryptionTarget.fromOTK (device : Device) (oneTimeKey : String) : EncryptionTarget :=
  ⟨device, some oneTimeKey, none, none⟩

def EncryptionTarget.fromSessionId (device : Device) (sessionId : String) : EncryptionTarget :=
  ⟨device, none, some sessionId, none⟩

/- State of the native session heap: a fresh-handle counter and, for each
handle, the number of times free has been called on it. -/
structure CryptoState where
  nextSession : Nat
  freeCounts : Nat → Nat

def initCrypto : CryptoState := ⟨0, fun _ => 0⟩

def allocSession (c : CryptoState) : Nat × CryptoState :=
  (c.nextSession, { c with nextSession := c.nextSession + 1 })

def freeSession (h : Nat) (c : CryptoState) : CryptoState :=
  { c with freeCounts := fun x => if x = h then c.freeCounts x + 1 else c.freeCounts x }

/- EncryptionTarget.dispose: free the session if one is assigned,
otherwise do nothing.  Note the source does not clear the session field. -/
def disposeTarget (t : EncryptionTarget) (c : CryptoState) : CryptoState :=
  match t.session with
  | some h => freeSession h c
  | none => c

def disposeAll (ts : List EncryptionTarget) (c : CryptoState) : CryptoState :=
  ts.foldl (fun c t => disposeTarget t c) c

/- Persisted session record.
Modelled from the spec: the record shape produced by createSessionEntry
from the session module, which is not among the provided sources; the spec
gives the Session Record as device key, session id, pickled session bytes
and a timestamp. -/
structure SessionRecord where
  deviceCurve25519Key : String
  sessionId : String
  session : String
  lastUsed : Nat
deriving DecidableEq

/- Modelled from the spec: createSessionEntry pickles the live session with
the process pickle key and builds the record keyed by device key and session
id, stamped with the call timestamp.  Session handles are serialised
injectively from the handle number. -/
def createSessionEntry (h : Nat) (deviceKey : String) (timestamp : Nat) (pickleKey : String) :
    SessionRecord :=
  { deviceCurve25519Key := deviceKey
    sessionId := toString h
    session := pickleKey ++ toString h
    lastUsed := timestamp }

/- Errors that can surface from the modelled code paths. -/
inductive JsError where
  | network
  | storage
  | reference
  | typeErr
deriving DecidableEq

/- Output value: one encrypted message per target. -/
structure EncryptedMessage where
  content : JVal
  device : Device

/- Structural lexicographic comparison on char lists, mirroring the string
comparison operator of the source language. -/
def charListLt : List Char → List Char → Bool
  | _, [] => false
  | [], _ :: _ => true
  | a :: as, b :: bs =>
    if a < b then true
    else if b < a then false
    else charListLt as bs

/- The string less-than operator of the source language. -/
def jsLt (a b : String) : Bool := charListLt a.data b.data

/- The reducer lambda of findFirstSessionId: take the new id whenever the
accumulator is falsy (null or the empty string) or the new id is smaller in
the string order. -/
def findFirstStep (first : Option String) (sessionId : String) : Option String :=
  match first with
  | none => some sessionId
  | some f => if f = "" ∨ jsLt sessionId f then some sessionId else some f

/- function findFirstSessionId: reduce with initial null. -/
def findFirstSessionId (sessionIds : List String) : Option String :=
  sessionIds.foldl findFirstStep none

def OTK_ALGORITHM : String := "signed_curve25519"

/- Modelled from the spec: OLM_ALGORITHM is imported from the common module,
which is not among the provided sources; the spec fixes the wire algorithm
identifier. -/
def OLM_ALGORITHM : String := "m.olm.v1.curve25519-aes-sha2"

/- Partition of _findExistingSessions: devices whose stored session id list
is empty are routed to session creation. -/
def devicesWithoutSessionOf (getSessionIds : String → List String)
    (devices : List Device) : List Device :=
  devices.filter fun d => (getSessionIds d.curve25519Key).isEmpty

/- The other half of _findExistingSessions: for each device with at least one
stored session id, build a pending-load target from findFirstSessionId. -/
def existingTargetsOf (getSessionIds : String → List String)
    (devices : List Device) : List EncryptionTarget :=
  devices.filterMap fun d =>
    let ids := getSessionIds d.curve25519Key
    if ids.isEmpty then none
    else (findFirstSessionId ids).map fun sid => EncryptionTarget.fromSessionId d sid

def findExistingSessions (getSessionIds : String → List String)
    (devices : List Device) : List Device × List EncryptionTarget :=
  (devicesWithoutSessionOf getSessionIds devices, existingTargetsOf getSessionIds devices)

/- Association list get, mirroring Map.get. -/
def assocGet {α : Type} (m : List (String × α)) (k : String) : Option α :=
  (m.find? fun p => p.1 == k).map fun p => p.2

/- Association list set, mirroring Map.set: replace in place when the key is
present, append otherwise. -/
def assocSet {α : Type} (m : List (String × α)) (k : String) (v : α) :
    List (String × α) :=
  match m with
  | [] => [(k, v)]
  | p :: rest => if p.1 == k then (k, v) :: rest else p :: assocSet rest k v

/- Modelled from the spec: one accumulator step of groupByWithCreator from
the grouping utility module, which is not among the provided sources; the
spec describes the utility as a two-level ordered-map builder grouping
devices by user id and then by device id.  The step fetches or creates the
collection for the user and adds the device under its device id. -/
def groupStep (map : List (String × List (String × Device))) (device : Device) :
    List (String × List (String × Device)) :=
  let collection := (assocGet map device.userId).getD []
  assocSet map device.userId (assocSet collection device.deviceId device)

/- Modelled from the spec: groupByWithCreator reduces the device list into a
map of maps starting from an empty map. -/
def groupDevicesByUser (devices : List Device) : List (String × List (String × Device)) :=
  devices.foldl groupStep []

def lookupDevice (devicesByUser : List (String × List (String × Device)))
    (u d : String) : Option Device :=
  (assocGet devicesByUser u).bind fun dm => assocGet dm d

/- The one_time_keys object of the claim request: user id to device id to the
requested key algorithm. -/
def oneTimeKeysObj (devicesByUser : List (String × List (String × Device))) : JVal :=
  .obj (devicesByUser.map fun p =>
    (p.1, .obj (p.2.map fun q => (q.2.deviceId, .str OTK_ALGORITHM))))

/- The full JSON body handed to hsApi.claimKeys. -/
def claimRequestBody (devices : List Device) : JVal :=
  .obj [("timeout", .num 10000),
        ("one_time_keys", oneTimeKeysObj (groupDevicesByUser devices))]

/- Entries of a JSON object value. -/
def jObjEntries : JVal → List (String × JVal)
  | .obj l => l
  | _ => []

def jLookup (j : JVal) (k : String) : Option JVal :=
  assocGet (jObjEntries j) k

/- The user id and device id pairs listed by a two-level JSON object such as
the one_time_keys section of a claim request. -/
def jPairs (j : JVal) : List (String × String) :=
  (jObjEntries j).flatMap fun p => (jObjEntries p.2).map fun q => (p.1, q.1)

/- All inner values of a two-level JSON object. -/
def jInnerValues (j : JVal) : List JVal :=
  (jObjEntries j).flatMap fun p => (jObjEntries p.2).map fun q => q.2

/- The first element of splitting a property name at the colon separator:
the characters before the first colon, or the whole string if there is no
colon.  This is the only component of the split the source destructures. -/
def keyAlgorithmOf (s : String) : String :=
  ⟨s.data.takeWhile fun c => c != ':'⟩

/- The key claim response section for one user: device id to the object of
claimed key entries, each keyed by an algorithm-and-key-id property name. -/
abbrev UserSection := List (String × List (String × KeySection))

/- The whole one_time_keys section of a claim response. -/
abbrev UserKeyMap := List (String × UserSection)

/- A claim response with every device entry truncated to its first listed
key property, used to state that only the first entry is ever considered. -/
def truncateFirst (userKeyMap : UserKeyMap) : UserKeyMap :=
  userKeyMap.map fun p => (p.1, p.2.map fun q => (q.1, q.2.take 1))

/- The environment of one encrypt call: storage reads, the network, the
signature verifier and the crypto library, all given as oracles, plus the
completion order of the parallel session loads. -/
structure Env where
  getSessionIds : String → List String
  getSession : String → String → Except Unit (Option String)
  claimOk : Bool
  oneTimeKeysResponse : UserKeyMap
  verify : String → String → String → KeySection → Bool
  createOk : String → Bool
  unpickleOk : String → Bool
  writeOk : SessionRecord → Bool
  loadSchedule : List Nat

/- _verifyAndCreateOTKTargets, inner loop over one user section: take the
first property of each device entry, check its algorithm prefix, look the
device up among the requested ones and verify the signature.  Destructuring
the first property of an empty entry is a type error in the source. -/
def otkTargetsForUser (verify : String → String → String → KeySection → Bool)
    (userId : String) (devicesByUser : List (String × List (String × Device))) :
    List (String × List (String × KeySection)) → Except JsError (List EncryptionTarget)
  | [] => .ok []
  | (deviceId, deviceSection) :: rest =>
    match deviceSection.head? with
    | none => .error .typeErr
    | some (firstPropName, keySection) =>
      let keyAlgorithm := keyAlgorithmOf firstPropName
      let here :=
        if keyAlgorithm = OTK_ALGORITHM then
          match lookupDevice devicesByUser userId deviceId with
          | some device =>
            if verify userId deviceId device.ed25519Key keySection
            then [EncryptionTarget.fromOTK device keySection.key]
            else []
          | none => []
        else []
      match otkTargetsForUser verify userId devicesByUser rest with
      | .ok ts => .ok (here ++ ts)
      | .error e => .error e

/- _verifyAndCreateOTKTargets, outer loop over the response users. -/
def verifyAndCreateOTKTargets (verify : String → String → String → KeySection → Bool)
    (userKeyMap : UserKeyMap)
    (devicesByUser : List (String × List (String × Device))) :
    Except JsError (List EncryptionTarget) :=
  match userKeyMap with
  | [] => .ok []
  | (userId, userSection) :: rest =>
    match otkTargetsForUser verify userId devicesByUser userSection with
    | .error e => .error e
    | .ok ts =>
      match verifyAndCreateOTKTargets verify rest devicesByUser with
      | .error e => .error e
      | .ok more => .ok (ts ++ more)

/- _claimOneTimeKeys: build the grouped request, issue it once, and turn the
response into verified targets.  The first component records the network
requests issued. -/
def claimOneTimeKeys (env : Env) (deviceIdentities : List Device) :
    List JVal × Except JsError (List EncryptionTarget) :=
  let devicesByUser := groupDevicesByUser deviceIdentities
  (([claimRequestBody deviceIdentities]),
   if env.claimOk
   then verifyAndCreateOTKTargets env.verify env.oneTimeKeysResponse devicesByUser
   else .error .network)

/- Result of the assignment loop of _createNewSessions: the targets after
mutation, the crypto state, the handles assigned, and whether the loop ran to
completion (false when createOutboundOlmSession threw). -/
structure AssignResult where
  targets : List EncryptionTarget
  crypto : CryptoState
  assigned : List Nat
  ok : Bool

/- The for loop of _createNewSessions: assign a fresh outbound session to each
target in order, stopping at the first creation failure. -/
def assignOutboundSessions (createOk : String → Bool) :
    List EncryptionTarget → CryptoState → List Nat → AssignResult
  | [], c, as => ⟨[], c, as, true⟩
  | t :: rest, c, as =>
    if createOk t.device.curve25519Key then
      let p := allocSession c
      let r := assignOutboundSessions createOk rest p.2 (as ++ [p.1])
      ⟨{ t with session := some p.1 } :: r.targets, r.crypto, r.assigned, r.ok⟩
    else ⟨t :: rest, c, as, false⟩

/- The write loop of _storeSessions: build a record per target and issue the
writes in order; the first failing write aborts the transaction.  A target
without a session makes record creation itself throw, which the catch turns
into an abort as well. -/
def storeSessionsGo (writeOk : SessionRecord → Bool) (pickleKey : String)
    (timestamp : Nat) :
    List EncryptionTarget → List SessionRecord → Except Unit (List SessionRecord)
  | [], acc => .ok acc
  | t :: rest, acc =>
    match t.session with
    | none => .error ()
    | some h =>
      let entry := createSessionEntry h t.device.curve25519Key timestamp pickleKey
      if writeOk entry then storeSessionsGo writeOk pickleKey timestamp rest (acc ++ [entry])
      else .error ()

/- _storeSessions run to completion under a read-write transaction: on success
the batch of records is appended to the store atomically, on failure the
transaction is aborted and the store is unchanged. -/
def storeSessionsApply (writeOk : SessionRecord → Bool) (pickleKey : String)
    (timestamp : Nat) (targets : List EncryptionTarget)
    (store : List SessionRecord) : Except Unit Unit × List SessionRecord :=
  match storeSessionsGo writeOk pickleKey timestamp targets [] with
  | .ok recs => (.ok (), store ++ recs)
  | .error e => (.error e, store)

/- Result of _createNewSessions: the returned targets, the crypto state, the
handles assigned during creation, and the records of the eager defensive
write, which is issued without awaiting its transaction and is therefore
still pending when the function returns. -/
structure CreateResult where
  targets : List EncryptionTarget
  crypto : CryptoState
  assigned : List Nat
  pending : Option (List SessionRecord)

/- _createNewSessions: claim keys, create outbound sessions, and issue the
eager store write without awaiting it.  A creation failure disposes every
target, swallows the error, skips the eager write and still returns the
disposed targets.  A failing eager write aborts its own transaction and its
rejection is unobserved. -/
def createNewSessions (env : Env) (pickleKey : String) (timestamp : Nat)
    (devicesWithoutSession : List Device) (c0 : CryptoState) :
    Except JsError CreateResult :=
  match (claimOneTimeKeys env devicesWithoutSession).2 with
  | .error e => .error e
  | .ok newTargets =>
    let r := assignOutboundSessions env.createOk newTargets c0 []
    if r.ok then
      match storeSessionsGo env.writeOk pickleKey timestamp r.targets [] with
      | .ok recs => .ok ⟨r.targets, r.crypto, r.assigned, some recs⟩
      | .error _ => .ok ⟨r.targets, r.crypto, r.assigned, none⟩
    else
      .ok ⟨r.targets, disposeAll r.targets r.crypto, r.assigned, none⟩

/- State of the parallel load loop of _loadSessions: the targets after the
completions processed so far, the crypto state, the handles assigned during
loading, and the shared failed flag. -/
structure LoadState where
  targets : List EncryptionTarget
  crypto : CryptoState
  assigned : List Nat
  failed : Bool

/- Whether the load of one target fails: the storage read throws, or the entry
exists and unpickling it throws. -/
def loadOutcomeFails (env : Env) (t : EncryptionTarget) : Bool :=
  match t.sessionId with
  | none => false
  | some sid =>
    match env.getSession t.device.curve25519Key sid with
    | .error _ => true
    | .ok none => false
    | .ok (some pickled) => !env.unpickleOk pickled

/- One completion of the load phase.  After the failed flag is set nothing
more is assigned.  On the first failure every target of the batch is
disposed, mirroring the catch of _loadSessions.  An unpickle failure still
allocates the session object first; that allocation is never assigned. -/
def processLoadCompletion (env : Env) (st : LoadState) (i : Nat) : LoadState :=
  if st.failed then st else
  match st.targets[i]? with
  | none => st
  | some t =>
    match t.sessionId with
    | none => st
    | some sid =>
      match env.getSession t.device.curve25519Key sid with
      | .error _ => { st with crypto := disposeAll st.targets st.crypto, failed := true }
      | .ok none => st
      | .ok (some pickled) =>
        let p := allocSession st.crypto
        if env.unpickleOk pickled then
          { st with targets := st.targets.set i { t with session := some p.1 },
                    crypto := p.2, assigned := st.assigned ++ [p.1] }
        else
          { st with crypto := disposeAll st.targets p.2, failed := true }

/- _loadSessions over a completion schedule: process the completions in order
and re-raise if any failed. -/
def loadSessions (env : Env) (targets : List EncryptionTarget) (schedule : List Nat)
    (c0 : CryptoState) : Except Unit Unit × LoadState :=
  let final := schedule.foldl (processLoadCompletion env) ⟨targets, c0, [], false⟩
  (if final.failed then .error () else .ok (), final)

/- Observable outcome of one encrypt call: the returned value or the error
thrown, the durable store after all transactions have settled, the crypto
state after the finally block, and the session handles that were ever
assigned to a target, split by phase. -/
structure EncryptOutcome where
  result : Except JsError (List EncryptedMessage)
  store : List SessionRecord
  crypto : CryptoState
  createAssigned : List Nat
  loadAssigned : List Nat

/- encrypt: partition devices, create new sessions, load existing ones,
then map the targets to messages.  The map callback reads the shadowing
const content inside its own initializer, so any nonempty batch of targets
throws a reference error before a single message is built; the finally
block disposes every target in encryptionTargets on every path.  The eager
write of the creation phase commits once the call has settled. -/
def encrypt (env : Env) (pickleKey : String) (msgType : String) (content : JVal)
    (devices : List Device) (timestamp : Nat) (store0 : List SessionRecord)
    (c0 : CryptoState) : EncryptOutcome :=
  let devicesWithoutSession := devicesWithoutSessionOf env.getSessionIds devices
  let existingTargets := existingTargetsOf env.getSessionIds devices
  let createRes :=
    if devicesWithoutSession.isEmpty then .ok ⟨[], c0, [], none⟩
    else createNewSessions env pickleKey timestamp devicesWithoutSession c0
  match createRes with
  | .error e =>
    { result := .error e, store := store0, crypto := c0,
      createAssigned := [], loadAssigned := [] }
  | .ok phase =>
    let eager := phase.pending.getD []
    let load := loadSessions env existingTargets env.loadSchedule phase.crypto
    match load.1 with
    | .error _ =>
      { result := .error .storage,
        store := store0 ++ eager,
        crypto := disposeAll phase.targets load.2.crypto,
        createAssigned := phase.assigned, loadAssigned := load.2.assigned }
    | .ok _ =>
      match phase.targets ++ load.2.targets with
      | [] =>
        { result := .ok [],
          store := store0 ++ eager,
          crypto := load.2.crypto,
          createAssigned := phase.assigned, loadAssigned := load.2.assigned }
      | _ :: _ =>
        { result := .error .reference,
          store := store0 ++ eager,
          crypto := disposeAll (phase.targets ++ load.2.targets) load.2.crypto,
          createAssigned := phase.assigned, loadAssigned := load.2.assigned }

/- _buildPlainTextMessageForDevice: the plaintext envelope handed to the olm
session, with the field layout of the source. -/
def buildPlainTextMessageForDevice (accountEd25519 userId : String)
    (msgType : String) (content : JVal) (device : Device) : JVal :=
  .obj [("keys", .obj [("ed25519", .str accountEd25519)]),
        ("recipient_keys", .obj [("ed25519", .str device.ed25519Key)]),
        ("recipient", .str device.userId),
        ("sender", .str userId),
        ("content", content),
        ("type", .str msgType)]

/- _encryptForDevice: encrypt the plaintext envelope through the live session
of the target and wrap the ciphertext; the olm ratchet step is the oracle
sessEncrypt from handle and plaintext to ciphertext body.  A target without a
live session makes the source throw, modelled as none. -/
def encryptForDevice (sessEncrypt : Nat → JVal → JVal)
    (accountCurve25519 accountEd25519 userId : String)
    (msgType : String) (content : JVal) (target : EncryptionTarget) : Option JVal :=
  match target.session with
  | none => none
  | some h =>
    let message := sessEncrypt h
      (buildPlainTextMessageForDevice accountEd25519 userId msgType content target.device)
    some (.obj [("algorithm", .str OLM_ALGORITHM),
                ("sender_key", .str accountCurve25519),
                ("ciphertext", .obj [(target.device.curve25519Key, message)])])

/- The wire shape of one encrypted message as the specification words it:
algorithm identifier, own curve25519 key as sender_key, and a ciphertext map
from the recipient device curve25519 key to the ciphertext body. -/
def specWireShape (senderCurve25519 recipientCurve25519 : String)
    (ciphertextBody : JVal) : JVal :=
  .obj [("algorithm", .str "m.olm.v1.curve25519-aes-sha2"),
        ("sender_key", .str senderCurve25519),
        ("ciphertext", .obj [(recipientCurve25519, ciphertextBody)])]

/- The plaintext envelope as the specification words it: the senders own
signing identity key, the recipients signing identity key, the recipient user
id, the sender user id, the message type and the content. -/
def specPlainEnvelope (senderEd25519 recipientEd25519 recipientUserId
    senderUserId msgType : String) (content : JVal) : JVal :=
  .obj [("keys", .obj [("ed25519", .str senderEd25519)]),
        ("recipient_keys", .obj [("ed25519", .str recipientEd25519)]),
        ("recipient", .str recipientUserId),
        ("sender", .str senderUserId),
        ("content", content),
        ("type", .str msgType)]

/- ===================== concrete instances for evaluation ================== -/

def devA : Device := ⟨"@alice:hs", "AAAA", "curveA", "edA"⟩

def devB : Device := ⟨"@bob:hs", "BBBB", "curveB", "edB"⟩

def devC1 : Device := ⟨"@carol:hs", "CCC1", "curveC1", "edC1"⟩

def devC2 : Device := ⟨"@carol:hs", "CCC2", "curveC2", "edC2"⟩

/- A call with one device that has a stored session s1 and a loadable entry. -/
def envSingleExisting : Env :=
  { getSessionIds := fun _ => ["s1"]
    getSession := fun _ _ => .ok (some "pickled1")
    claimOk := true
    oneTimeKeysResponse := []
    verify := fun _ _ _ _ => true
    createOk := fun _ => true
    unpickleOk := fun _ => true
    writeOk := fun _ => true
    loadSchedule := [0] }

/- A claim response with valid entries for both carol devices. -/
def carolResponse : UserKeyMap :=
  [("@carol:hs",
    [("CCC1", [("signed_curve25519:AAAAHQ", ⟨"otk1", "sig1"⟩)]),
     ("CCC2", [("signed_curve25519:AAAAHg", ⟨"otk2", "sig2"⟩)])])]

/- A call where outbound session creation succeeds for curveC1 but throws for
every other device. -/
def envCreateFailure : Env :=
  { getSessionIds := fun _ => []
    getSession := fun _ _ => .ok none
    claimOk := true
    oneTimeKeysResponse := carolResponse
    verify := fun _ _ _ _ => true
    createOk := fun k => k == "curveC1"
    unpickleOk := fun _ => true
    writeOk := fun _ => true
    loadSchedule := [] }

/- A call where claiming, signature checks, creation and writes all succeed. -/
def envCreateOk : Env :=
  { getSessionIds := fun _ => []
    getSession := fun _ _ => .ok none
    claimOk := true
    oneTimeKeysResponse := carolResponse
    verify := fun _ _ _ _ => true
    createOk := fun _ => true
    unpickleOk := fun _ => true
    writeOk := fun _ => true
    loadSchedule := [] }

/- A mixed call: devA has a stored session whose load throws a storage error,
while devC1 needs a new session and its claim and creation succeed. -/
def envMixedLoadFailure : Env :=
  { getSessionIds := fun k => if k == "curveA" then ["s1"] else []
    getSession := fun _ _ => .error ()
    claimOk := true
    oneTimeKeysResponse := carolResponse
    verify := fun _ _ _ _ => true
    createOk := fun _ => true
    unpickleOk := fun _ => true
    writeOk := fun _ => true
    loadSchedule := [0] }

/- ===================== theorems and supporting lemmas ===================== -/

theorem charListLt_iff (a : List Char) : ∀ b : List Char,
    charListLt a b = true ↔ a < b := by
  induction a with
  | nil =>
    intro b
    cases b with
    | nil =>
      simp only [charListLt, Bool.false_eq_true, false_iff]
      exact List.Lex.not_nil_right _ _
    | cons y ys =>
      simp only [charListLt, true_iff]
      exact List.Lex.nil
  | cons x xs ih =>
    intro b
    cases b with
    | nil =>
      simp only [charListLt, Bool.false_eq_true, false_iff]
      exact List.Lex.not_nil_right _ _
    | cons y ys =>
      by_cases hxy : x < y
      · simp only [charListLt, hxy, if_pos, true_iff]
        exact List.Lex.rel hxy
      · by_cases hyx : y < x
        · simp only [charListLt, hxy, hyx, if_neg, if_pos, not_false_iff,
            Bool.false_eq_true, false_iff]
          intro hlex
          cases hlex with
          | rel h => exact hxy h
          | cons h => exact absurd hyx (lt_irrefl x)
        · have hxyeq : x = y := le_antisymm (not_lt.mp hyx) (not_lt.mp hxy)
          subst hxyeq
          simp only [charListLt, lt_irrefl, if_neg, not_false_iff]
          rw [ih ys]
          exact (List.Lex.cons_iff).symm

theorem jsLt_iff (a b : String) : jsLt a b = true ↔ a < b := by
  rw [String.lt_iff_toList_lt]
  exact charListLt_iff a.data b.data

theorem jsLt_false (a b : String) (h : jsLt a b = false) : b ≤ a := by
  have hnot : ¬ a < b := by
    intro hlt
    have htrue := (jsLt_iff a b).mpr hlt
    rw [h] at htrue
    exact Bool.false_ne_true htrue
  exact not_lt.mp hnot

theorem findFirstStep_go (l : List String) : ∀ f : String, f ≠ "" → "" ∉ l →
    ∃ m, l.foldl findFirstStep (some f) = some m ∧ (m = f ∨ m ∈ l) ∧ m ≤ f ∧
      (∀ x ∈ l, m ≤ x) ∧ m ≠ "" := by
  induction l with
  | nil =>
    intro f hf _
    exact ⟨f, rfl, Or.inl rfl, le_refl _, fun x hx => absurd hx (List.not_mem_nil x), hf⟩
  | cons s rest ih =>
    intro f hf hmem
    have hs : s ≠ "" := by intro h; exact hmem (h ▸ List.mem_cons_self s rest)
    have hrest : "" ∉ rest := fun h => hmem (List.mem_cons_of_mem _ h)
    have hstep : findFirstStep (some f) s =
        if f = "" ∨ jsLt s f then some s else some f := rfl
    cases hsf : jsLt s f with
    | true =>
      have hslt : s < f := (jsLt_iff s f).mp hsf
      have : findFirstStep (some f) s = some s := by
        rw [hstep, if_pos (Or.inr hsf)]
      obtain ⟨m, hfold, hmem2, hle, hall, hne⟩ := ih s hs hrest
      refine ⟨m, ?_, ?_, le_trans hle (le_of_lt hslt), ?_, hne⟩
      · simpa [this] using hfold
      · rcases hmem2 with h | h
        · exact Or.inr (h ▸ List.mem_cons_self s rest)
        · exact Or.inr (List.mem_cons_of_mem _ h)
      · intro x hx
        rcases List.mem_cons.mp hx with h | h
        · exact h ▸ hle
        · exact hall x h
    | false =>
      have hfs : f ≤ s := jsLt_false s f hsf
      have : findFirstStep (some f) s = some f := by
        rw [hstep, if_neg]
        simp [hf, hsf]
      obtain ⟨m, hfold, hmem2, hle, hall, hne⟩ := ih f hf hrest
      refine ⟨m, ?_, ?_, hle, ?_, hne⟩
      · simpa [this] using hfold
      · rcases hmem2 with h | h
        · exact Or.inl h
        · exact Or.inr (List.mem_cons_of_mem _ h)
      · intro x hx
        rcases List.mem_cons.mp hx with h | h
        · exact h ▸ le_trans hle hfs
        · exact hall x h

theorem findFirstSessionId_min (l : List String) (hne : l ≠ []) (hval : "" ∉ l) :
    ∃ m, findFirstSessionId l = some m ∧ m ∈ l ∧ ∀ x ∈ l, m ≤ x := by
  cases l with
  | nil => exact absurd rfl hne
  | cons s rest =>
    have hs : s ≠ "" := by intro h; exact hval (h ▸ List.mem_cons_self s rest)
    have hrest : "" ∉ rest := fun h => hval (List.mem_cons_of_mem _ h)
    obtain ⟨m, hfold, hmem2, hle, hall, _⟩ := findFirstStep_go rest s hs hrest
    refine ⟨m, ?_, ?_, ?_⟩
    · simpa [findFirstSessionId, List.foldl_cons, findFirstStep] using hfold
    · rcases hmem2 with h | h
      · exact h ▸ List.mem_cons_self s rest
      · exact List.mem_cons_of_mem _ h
    · intro x hx
      rcases List.mem_cons.mp hx with h | h
      · exact h ▸ hle
      · exact hall x h

theorem findFirstSessionId_perm (l l2 : List String) (hval : "" ∉ l)
    (hperm : l.Perm l2) : findFirstSessionId l2 = findFirstSessionId l := by
  cases l with
  | nil =>
    have h2 : l2 = [] := List.Perm.eq_nil hperm.symm
    rw [h2]
  | cons s rest =>
    have hne : (s :: rest) ≠ ([] : List String) := by simp
    have hne2 : l2 ≠ [] := by
      intro h
      rw [h] at hperm
      exact hne hperm.eq_nil
    have hval2 : "" ∉ l2 := fun h => hval (hperm.mem_iff.mpr h)
    obtain ⟨m1, h1, hm1, hall1⟩ := findFirstSessionId_min (s :: rest) hne hval
    obtain ⟨m2, h2, hm2, hall2⟩ := findFirstSessionId_min l2 hne2 hval2
    have e1 : m1 ≤ m2 := hall1 m2 (hperm.mem_iff.mpr hm2)
    have e2 : m2 ≤ m1 := hall2 m1 (hperm.mem_iff.mp hm1)
    rw [h1, h2, le_antisymm e2 e1]

/-- C3 counterexample: when the store returns the session ids [empty, a], the
code selects a as the current session although the empty string is a member
of the list and strictly smaller, so the selected id is not the
lexicographically smallest one. -/
theorem C3_counterexample_empty_id :
    findFirstSessionId ["", "a"] = some "a" ∧
    ("" : String) ∈ ["", "a"] ∧ ("" : String) < "a" ∧
    existingTargetsOf (fun _ => ["", "a"]) [devB] =
      [⟨devB, none, some "a", none⟩] := by
  refine ⟨rfl, List.mem_cons_self _ _, ?_, rfl⟩
  exact (jsLt_iff "" "a").mp (by decide)

/-- C3 (amended): for every device whose store lookup returns one or more
session ids, none of which is the empty string, the orchestrator selects the
lexicographically smallest session id as the device current session,
independently of the order in which the session ids are returned.  Without
the no-empty-id proviso the claim fails, because the reducer treats an empty
accumulator as absent and overwrites it with the next id. -/
theorem C3_smallest_session_selected
    (getSessionIds : String → List String) (devices : List Device) (d : Device)
    (hd : d ∈ devices) (hne : getSessionIds d.curve25519Key ≠ [])
    (hval : "" ∉ getSessionIds d.curve25519Key) :
    (∃ m, findFirstSessionId (getSessionIds d.curve25519Key) = some m ∧
       m ∈ getSessionIds d.curve25519Key ∧
       ∀ x ∈ getSessionIds d.curve25519Key, m ≤ x) ∧
    (∃ t ∈ existingTargetsOf getSessionIds devices,
       t.device = d ∧
       t.sessionId = findFirstSessionId (getSessionIds d.curve25519Key)) ∧
    (∀ ids2, (getSessionIds d.curve25519Key).Perm ids2 →
       findFirstSessionId ids2 = findFirstSessionId (getSessionIds d.curve25519Key)) := by
  obtain ⟨m, hm, hmem, hall⟩ :=
    findFirstSessionId_min (getSessionIds d.curve25519Key) hne hval
  refine ⟨⟨m, hm, hmem, hall⟩, ?_, ?_⟩
  · refine ⟨EncryptionTarget.fromSessionId d m, ?_, rfl, by rw [hm]; exact rfl⟩
    rw [existingTargetsOf]
    apply List.mem_filterMap.mpr
    refine ⟨d, hd, ?_⟩
    have hif : (getSessionIds d.curve25519Key).isEmpty = false := by
      cases hids : getSessionIds d.curve25519Key with
      | nil => exact absurd hids hne
      | cons a l => simp [List.isEmpty]
    simp only [hif, Bool.false_eq_true, if_false, hm]
    exact rfl
  · intro ids2 hperm
    exact findFirstSessionId_perm _ ids2 hval hperm

/-- C3 witness: for the scenario with session ids [s3, s1] the smallest id s1
is selected, at a concrete device. -/
theorem C3_smallest_session_selected_witness :
    (∃ m, findFirstSessionId ((fun _ => ["s3", "s1"]) devB.curve25519Key) = some m ∧
       m ∈ (fun _ => ["s3", "s1"]) devB.curve25519Key ∧
       ∀ x ∈ (fun (_ : String) => ["s3", "s1"]) devB.curve25519Key, m ≤ x) ∧
    (∃ t ∈ existingTargetsOf (fun _ => ["s3", "s1"]) [devB],
       t.device = devB ∧
       t.sessionId = findFirstSessionId ((fun _ => ["s3", "s1"]) devB.curve25519Key)) ∧
    (∀ ids2, ((fun (_ : String) => ["s3", "s1"]) devB.curve25519Key).Perm ids2 →
       findFirstSessionId ids2 =
         findFirstSessionId ((fun _ => ["s3", "s1"]) devB.curve25519Key)) :=
  C3_smallest_session_selected (fun _ => ["s3", "s1"]) [devB] devB
    (List.mem_singleton.mpr rfl) (by decide) (by decide)

/-- C1: the code contradicts the claim that encrypt returns exactly one
encrypted message per device that ends up with a live session.  The map
callback declares const content initialized from itself, shadowing the outer
content, so for one device with a loaded session the call throws a reference
error and returns no message; the loaded session was assigned and then
released by the finally block. -/
theorem C1_reference_error_instead_of_messages :
    (encrypt envSingleExisting "pk" "m.text" (.str "hello") [devA] 7 [] initCrypto).result
        = .error .reference ∧
    (encrypt envSingleExisting "pk" "m.text" (.str "hello") [devA] 7 [] initCrypto).loadAssigned
        = [0] ∧
    (encrypt envSingleExisting "pk" "m.text" (.str "hello") [devA] 7 [] initCrypto).crypto.freeCounts 0
        = 1 :=
  ⟨rfl, rfl, rfl⟩

/-- C2: the code contradicts the claim that every target whose session was
ever assigned is released exactly once on every exit path.  When session
creation throws for the second of two new devices, the catch inside
_createNewSessions disposes the first target, swallows the error and returns
the disposed targets; the finally block of encrypt then disposes the same
target again, so its session is freed twice. -/
theorem C2_session_freed_twice :
    (encrypt envCreateFailure "pk" "m.text" (.str "hello") [devC1, devC2] 7 [] initCrypto).createAssigned
        = [0] ∧
    (encrypt envCreateFailure "pk" "m.text" (.str "hello") [devC1, devC2] 7 [] initCrypto).crypto.freeCounts 0
        = 2 ∧
    (encrypt envCreateFailure "pk" "m.text" (.str "hello") [devC1, devC2] 7 [] initCrypto).result
        = .error .reference :=
  ⟨rfl, rfl, rfl⟩

/-- C5: the code contradicts the claim that the newly created session is
persisted before the encryption step runs.  For one device with a valid
signed one-time key, exactly one outbound session is created, but
_createNewSessions calls _storeSessions without awaiting it, so when the
function returns and encrypt proceeds, the defensive write transaction is
still pending and no record is durably stored yet; it commits only after the
call has settled. -/
theorem C5_eager_write_pending_at_return :
    createNewSessions envCreateOk "pk" 7 [devC1] initCrypto =
      .ok { targets := [{ device := devC1, oneTimeKey := some "otk1",
                          sessionId := none, session := some 0 }]
            crypto := { nextSession := 1, freeCounts := fun _ => 0 }
            assigned := [0]
            pending := some [{ deviceCurve25519Key := "curveC1", sessionId := "0",
                               session := "pk0", lastUsed := 7 }] } ∧
    (encrypt envCreateOk "pk" "m.text" (.str "hello") [devC1] 7 [] initCrypto).store =
      [{ deviceCurve25519Key := "curveC1", sessionId := "0",
         session := "pk0", lastUsed := 7 }] ∧
    (encrypt envCreateOk "pk" "m.text" (.str "hello") [devC1] 7 [] initCrypto).result =
      .error .reference :=
  ⟨rfl, rfl, rfl⟩

theorem storeSessionsGo_spec (writeOk : SessionRecord → Bool) (pickleKey : String)
    (timestamp : Nat) : ∀ (targets : List EncryptionTarget) (acc : List SessionRecord),
    (∀ t ∈ targets, t.session.isSome) →
    ((∀ t ∈ targets, ∀ h, t.session = some h →
        writeOk (createSessionEntry h t.device.curve25519Key timestamp pickleKey) = true) →
      storeSessionsGo writeOk pickleKey timestamp targets acc =
        .ok (acc ++ targets.map fun t =>
          createSessionEntry (t.session.getD 0) t.device.curve25519Key timestamp pickleKey)) ∧
    ((∃ t ∈ targets, ∀ h, t.session = some h →
        writeOk (createSessionEntry h t.device.curve25519Key timestamp pickleKey) = false) →
      storeSessionsGo writeOk pickleKey timestamp targets acc = .error ()) := by
  intro targets
  induction targets with
  | nil =>
    intro acc _
    constructor
    · intro _
      simp [storeSessionsGo]
    · intro hex
      obtain ⟨t, ht, _⟩ := hex
      exact absurd ht (List.not_mem_nil t)
  | cons t rest ih =>
    intro acc hs
    have hts : t.session.isSome := hs t (List.mem_cons_self t rest)
    obtain ⟨h, hth⟩ := Option.isSome_iff_exists.mp hts
    have hrest : ∀ u ∈ rest, u.session.isSome :=
      fun u hu => hs u (List.mem_cons_of_mem t hu)
    have hgo : storeSessionsGo writeOk pickleKey timestamp (t :: rest) acc =
        (if writeOk (createSessionEntry h t.device.curve25519Key timestamp pickleKey)
         then storeSessionsGo writeOk pickleKey timestamp rest
           (acc ++ [createSessionEntry h t.device.curve25519Key timestamp pickleKey])
         else .error ()) := by
      rw [storeSessionsGo, hth]
    constructor
    · intro hall
      have hw : writeOk (createSessionEntry h t.device.curve25519Key timestamp pickleKey)
          = true := hall t (List.mem_cons_self t rest) h hth
      rw [hgo, if_pos hw,
        (ih (acc ++ [createSessionEntry h t.device.curve25519Key timestamp pickleKey]) hrest).1
          (fun u hu => hall u (List.mem_cons_of_mem t hu))]
      simp [hth, List.append_assoc]
    · intro hex
      obtain ⟨t0, ht0, hbad⟩ := hex
      rcases List.mem_cons.mp ht0 with he | he
      · subst he
        have hw := hbad h hth
        rw [hgo, if_neg (by simp [hw])]
      · cases hw : writeOk (createSessionEntry h t.device.curve25519Key timestamp pickleKey) with
        | true =>
          rw [hgo, if_pos hw]
          exact (ih _ hrest).2 ⟨t0, he, hbad⟩
        | false =>
          rw [hgo, if_neg (by simp [hw])]

/-- C7: if any write of the persistence step fails, the read-write
transaction is aborted so that no session record write from that call
becomes visible and the error is re-raised; if no write fails, the
transaction commits and appends exactly the batch records. -/
theorem C7_store_transaction_atomic (writeOk : SessionRecord → Bool)
    (pickleKey : String) (timestamp : Nat) (targets : List EncryptionTarget)
    (store : List SessionRecord) (hs : ∀ t ∈ targets, t.session.isSome) :
    ((∃ t ∈ targets, ∀ h, t.session = some h →
        writeOk (createSessionEntry h t.device.curve25519Key timestamp pickleKey) = false) →
      (storeSessionsApply writeOk pickleKey timestamp targets store).1 = .error () ∧
      (storeSessionsApply writeOk pickleKey timestamp targets store).2 = store) ∧
    ((∀ t ∈ targets, ∀ h, t.session = some h →
        writeOk (createSessionEntry h t.device.curve25519Key timestamp pickleKey) = true) →
      (storeSessionsApply writeOk pickleKey timestamp targets store).1 = .ok () ∧
      (storeSessionsApply writeOk pickleKey timestamp targets store).2 =
        store ++ targets.map fun t =>
          createSessionEntry (t.session.getD 0) t.device.curve25519Key timestamp pickleKey) := by
  obtain ⟨hok, herr⟩ := storeSessionsGo_spec writeOk pickleKey timestamp targets [] hs
  constructor
  · intro hex
    have hgo := herr hex
    rw [storeSessionsApply, hgo]
    exact ⟨rfl, rfl⟩
  · intro hall
    have hgo := hok hall
    rw [storeSessionsApply, hgo]
    simp

/-- C7 witness: with a write oracle that rejects every record, storing one
target with an assigned session aborts and leaves the store unchanged. -/
theorem C7_store_transaction_atomic_witness :
    (storeSessionsApply (fun _ => false) "pk" 3
        [⟨devA, none, none, some 0⟩]
        [{ deviceCurve25519Key := "x", sessionId := "9", session := "p9", lastUsed := 1 }]).1
      = .error () ∧
    (storeSessionsApply (fun _ => false) "pk" 3
        [⟨devA, none, none, some 0⟩]
        [{ deviceCurve25519Key := "x", sessionId := "9", session := "p9", lastUsed := 1 }]).2
      = [{ deviceCurve25519Key := "x", sessionId := "9", session := "p9", lastUsed := 1 }] :=
  (C7_store_transaction_atomic (fun _ => false) "pk" 3 [⟨devA, none, none, some 0⟩]
      [{ deviceCurve25519Key := "x", sessionId := "9", session := "p9", lastUsed := 1 }]
      (by decide)).1
    ⟨⟨devA, none, none, some 0⟩, List.mem_singleton.mpr rfl, fun _ _ => rfl⟩

/-- C8: every encrypted message has exactly the wire shape given by the
specification, and the plaintext envelope that is encrypted carries the
senders signing identity key, the recipients signing identity key, the
recipient user id, the sender user id, the message type and the content. -/
theorem C8_wire_shape_and_envelope (sessEncrypt : Nat → JVal → JVal)
    (accountCurve25519 accountEd25519 userId msgType : String) (content : JVal)
    (target : EncryptionTarget) (h : Nat) (hs : target.session = some h) :
    encryptForDevice sessEncrypt accountCurve25519 accountEd25519 userId msgType
        content target =
      some (specWireShape accountCurve25519 target.device.curve25519Key
        (sessEncrypt h (buildPlainTextMessageForDevice accountEd25519 userId msgType
          content target.device))) ∧
    buildPlainTextMessageForDevice accountEd25519 userId msgType content target.device =
      specPlainEnvelope accountEd25519 target.device.ed25519Key target.device.userId
        userId msgType content := by
  constructor
  · rw [encryptForDevice, hs]
    exact rfl
  · rfl

/-- C8 witness: the shape equalities at a concrete target with session
handle 4 and a concrete ratchet oracle. -/
theorem C8_wire_shape_and_envelope_witness :
    encryptForDevice (fun _ p => .obj [("type", .num 0), ("body", p)])
        "curveMe" "edMe" "@me:hs" "m.text" (.str "hi") ⟨devB, none, some "s1", some 4⟩ =
      some (specWireShape "curveMe" (⟨devB, none, some "s1", some 4⟩ : EncryptionTarget).device.curve25519Key
        ((fun (_ : Nat) (p : JVal) => JVal.obj [("type", .num 0), ("body", p)]) 4
          (buildPlainTextMessageForDevice "edMe" "@me:hs" "m.text" (.str "hi")
            (⟨devB, none, some "s1", some 4⟩ : EncryptionTarget).device))) ∧
    buildPlainTextMessageForDevice "edMe" "@me:hs" "m.text" (.str "hi")
        (⟨devB, none, some "s1", some 4⟩ : EncryptionTarget).device =
      specPlainEnvelope "edMe"
        (⟨devB, none, some "s1", some 4⟩ : EncryptionTarget).device.ed25519Key
        (⟨devB, none, some "s1", some 4⟩ : EncryptionTarget).device.userId
        "@me:hs" "m.text" (.str "hi") :=
  C8_wire_shape_and_envelope (fun _ p => .obj [("type", .num 0), ("body", p)])
    "curveMe" "edMe" "@me:hs" "m.text" (.str "hi") ⟨devB, none, some "s1", some 4⟩ 4 rfl

theorem assocGet_cons {α : Type} (p : String × α) (rest : List (String × α))
    (k2 : String) : assocGet (p :: rest) k2 =
      if p.1 == k2 then some p.2 else assocGet rest k2 := by
  rw [assocGet, List.find?]
  cases h : (p.1 == k2) with
  | true => simp
  | false => simp [assocGet]

theorem assocGet_eq_some {α : Type} : ∀ {m : List (String × α)} {k : String} {v : α},
    assocGet m k = some v → (k, v) ∈ m := by
  intro m
  induction m with
  | nil =>
    intro k v h
    rw [assocGet] at h
    simp [List.find?] at h
  | cons p rest ih =>
    intro k v h
    rw [assocGet_cons] at h
    by_cases hp : p.1 = k
    · rw [if_pos (by simpa using hp)] at h
      have hv : p.2 = v := Option.some.inj h
      have hkv : (k, v) = p := by
        cases p with
        | mk a b =>
          simp only at hp hv
          rw [hp, hv]
      rw [hkv]
      exact List.mem_cons_self _ _
    · rw [if_neg (by simpa using hp)] at h
      exact List.mem_cons_of_mem _ (ih h)

theorem assocGet_assocSet_self {α : Type} (m : List (String × α)) (k : String) (v : α) :
    assocGet (assocSet m k v) k = some v := by
  induction m with
  | nil => simp [assocSet, assocGet, List.find?]
  | cons p rest ih =>
    by_cases hp : p.1 = k
    · simp [assocSet, hp, assocGet, List.find?]
    · have hbeq : (p.1 == k) = false := by simpa using hp
      rw [assocSet]
      simp only [hbeq, Bool.false_eq_true, if_false]
      rw [assocGet] at ih ⊢
      simp only [List.find?, hbeq]
      exact ih

theorem assocGet_assocSet_ne {α : Type} (m : List (String × α)) (k k2 : String) (v : α)
    (hne : k2 ≠ k) : assocGet (assocSet m k v) k2 = assocGet m k2 := by
  have hkk : (k == k2) = false := by simpa using fun h => hne h.symm
  induction m with
  | nil =>
    rw [assocSet, assocGet_cons]
    simp [assocGet, List.find?, hkk]
  | cons p rest ih =>
    by_cases hp : p.1 = k
    · have hpk2 : (p.1 == k2) = false := by rw [hp]; exact hkk
      rw [assocSet]
      simp only [show (p.1 == k) = true by simpa using hp, if_true]
      rw [assocGet_cons, assocGet_cons]
      simp only [hkk, hpk2, Bool.false_eq_true, if_false]
    · rw [assocSet]
      simp only [show (p.1 == k) = false by simpa using hp, Bool.false_eq_true, if_false]
      rw [assocGet_cons, assocGet_cons]
      cases hpk2 : (p.1 == k2) with
      | true => simp
      | false => simp only [Bool.false_eq_true, if_false]; exact ih

theorem mem_assocSet {α : Type} {m : List (String × α)} {k : String} {v : α}
    {p : String × α} (h : p ∈ assocSet m k v) : p = (k, v) ∨ p ∈ m := by
  induction m with
  | nil =>
    rw [assocSet] at h
    exact Or.inl (List.mem_singleton.mp h)
  | cons q rest ih =>
    by_cases hq : q.1 = k
    · rw [assocSet] at h
      simp only [show (q.1 == k) = true by simpa using hq, if_true] at h
      rcases List.mem_cons.mp h with h2 | h2
      · exact Or.inl h2
      · exact Or.inr (List.mem_cons_of_mem _ h2)
    · rw [assocSet] at h
      simp only [show (q.1 == k) = false by simpa using hq, Bool.false_eq_true, if_false] at h
      rcases List.mem_cons.mp h with h2 | h2
      · exact Or.inr (h2 ▸ List.mem_cons_self q rest)
      · rcases ih h2 with h3 | h3
        · exact Or.inl h3
        · exact Or.inr (List.mem_cons_of_mem _ h3)

theorem keys_assocSet_subset {α : Type} {m : List (String × α)} {k : String} {v : α}
    {x : String} (h : x ∈ (assocSet m k v).map Prod.fst) :
    x = k ∨ x ∈ m.map Prod.fst := by
  obtain ⟨p, hp, hx⟩ := List.mem_map.mp h
  rcases mem_assocSet hp with h2 | h2
  · exact Or.inl (by rw [← hx, h2])
  · exact Or.inr (List.mem_map.mpr ⟨p, h2, hx⟩)

theorem assocSet_keys_nodup {α : Type} {m : List (String × α)} (k : String) (v : α)
    (h : (m.map Prod.fst).Nodup) : ((assocSet m k v).map Prod.fst).Nodup := by
  induction m with
  | nil => simp [assocSet]
  | cons q rest ih =>
    rw [List.map_cons, List.nodup_cons] at h
    by_cases hq : q.1 = k
    · rw [assocSet]
      simp only [show (q.1 == k) = true by simpa using hq, if_true]
      rw [List.map_cons, List.nodup_cons]
      exact ⟨by rw [← hq]; exact h.1, h.2⟩
    · rw [assocSet]
      simp only [show (q.1 == k) = false by simpa using hq, Bool.false_eq_true, if_false]
      rw [List.map_cons, List.nodup_cons]
      refine ⟨?_, ih h.2⟩
      intro hmem
      rcases keys_assocSet_subset hmem with h2 | h2
      · exact hq h2
      · exact h.1 h2

theorem groupFold_wf (S : List Device) :
    ∀ (l : List Device), (∀ d ∈ l, d ∈ S) →
    ∀ acc : List (String × List (String × Device)),
      (∀ p ∈ acc, ∀ q ∈ p.2, q.2.userId = p.1 ∧ q.2.deviceId = q.1 ∧ q.2 ∈ S) →
      ∀ p ∈ l.foldl groupStep acc, ∀ q ∈ p.2,
        q.2.userId = p.1 ∧ q.2.deviceId = q.1 ∧ q.2 ∈ S := by
  intro l
  induction l with
  | nil =>
    intro _ acc hacc
    simpa using hacc
  | cons d rest ih =>
    intro hsub acc hacc
    rw [List.foldl_cons]
    apply ih (fun x hx => hsub x (List.mem_cons_of_mem _ hx))
    intro p hp q hq
    simp only [groupStep] at hp
    rcases mem_assocSet hp with h1 | h1
    · subst h1
      rcases mem_assocSet hq with h2 | h2
      · subst h2
        exact ⟨rfl, rfl, hsub d (List.mem_cons_self d rest)⟩
      · cases hg : assocGet acc d.userId with
        | none =>
          rw [hg] at h2
          simp at h2
        | some dm =>
          rw [hg] at h2
          simp only [Option.getD_some] at h2
          exact hacc (d.userId, dm) (assocGet_eq_some hg) q h2
    · exact hacc p h1 q hq

theorem group_wf (devices : List Device) :
    ∀ p ∈ groupDevicesByUser devices, ∀ q ∈ p.2,
      q.2.userId = p.1 ∧ q.2.deviceId = q.1 ∧ q.2 ∈ devices := by
  have h := groupFold_wf devices devices (fun d hd => hd) []
    (fun p hp => absurd hp (List.not_mem_nil p))
  simpa [groupDevicesByUser] using h

theorem lookupDevice_wf {devices : List Device} {u d : String} {dev : Device}
    (h : lookupDevice (groupDevicesByUser devices) u d = some dev) :
    dev.userId = u ∧ dev.deviceId = d ∧ dev ∈ devices := by
  rw [lookupDevice] at h
  cases hg : assocGet (groupDevicesByUser devices) u with
  | none =>
    rw [hg] at h
    simp at h
  | some dm =>
    rw [hg] at h
    have h3 : assocGet dm d = some dev := h
    exact group_wf devices (u, dm) (assocGet_eq_some hg) (d, dev) (assocGet_eq_some h3)

theorem groupFold_nodup :
    ∀ (l : List Device) (acc : List (String × List (String × Device))),
      (acc.map Prod.fst).Nodup →
      (∀ p ∈ acc, (p.2.map Prod.fst).Nodup) →
      ((l.foldl groupStep acc).map Prod.fst).Nodup ∧
        ∀ p ∈ l.foldl groupStep acc, (p.2.map Prod.fst).Nodup := by
  intro l
  induction l with
  | nil =>
    intro acc h1 h2
    exact ⟨h1, h2⟩
  | cons d rest ih =>
    intro acc h1 h2
    rw [List.foldl_cons]
    apply ih
    · show (((assocSet acc d.userId _).map Prod.fst)).Nodup
      exact assocSet_keys_nodup _ _ h1
    · intro p hp
      simp only [groupStep] at hp
      rcases mem_assocSet hp with he | he
      · subst he
        apply assocSet_keys_nodup
        cases hg : assocGet acc d.userId with
        | none => simp
        | some dm => simpa using h2 (d.userId, dm) (assocGet_eq_some hg)
      · exact h2 p he

theorem group_nodup (devices : List Device) :
    ((groupDevicesByUser devices).map Prod.fst).Nodup ∧
      ∀ p ∈ groupDevicesByUser devices, (p.2.map Prod.fst).Nodup := by
  have h := groupFold_nodup devices [] (by simp) (fun p hp => absurd hp (List.not_mem_nil p))
  simpa [groupDevicesByUser] using h

theorem groupStep_preserves_presence {acc : List (String × List (String × Device))}
    {u d : String} (dev : Device)
    (h : ∃ dm, assocGet acc u = some dm ∧ (assocGet dm d).isSome) :
    ∃ dm, assocGet (groupStep acc dev) u = some dm ∧ (assocGet dm d).isSome := by
  obtain ⟨dm, hg, hd⟩ := h
  by_cases hu : dev.userId = u
  · subst hu
    refine ⟨assocSet ((assocGet acc dev.userId).getD []) dev.deviceId dev, ?_, ?_⟩
    · simp only [groupStep]
      exact assocGet_assocSet_self _ _ _
    · by_cases hdd : d = dev.deviceId
      · rw [hdd, assocGet_assocSet_self]
        simp
      · rw [assocGet_assocSet_ne _ _ _ _ hdd, hg]
        simpa using hd
  · refine ⟨dm, ?_, hd⟩
    simp only [groupStep]
    rw [assocGet_assocSet_ne _ _ _ _ (fun he => hu he.symm)]
    exact hg

theorem groupStep_establishes (acc : List (String × List (String × Device)))
    (dev : Device) :
    ∃ dm, assocGet (groupStep acc dev) dev.userId = some dm ∧
      (assocGet dm dev.deviceId).isSome := by
  refine ⟨assocSet ((assocGet acc dev.userId).getD []) dev.deviceId dev, ?_, ?_⟩
  · simp only [groupStep]
    exact assocGet_assocSet_self _ _ _
  · rw [assocGet_assocSet_self]
    simp

theorem groupFold_preserves_presence {u d : String} :
    ∀ (l : List Device) (acc : List (String × List (String × Device))),
      (∃ dm, assocGet acc u = some dm ∧ (assocGet dm d).isSome) →
      ∃ dm, assocGet (l.foldl groupStep acc) u = some dm ∧ (assocGet dm d).isSome := by
  intro l
  induction l with
  | nil =>
    intro acc h
    exact h
  | cons dv rest ih =>
    intro acc h
    rw [List.foldl_cons]
    exact ih _ (groupStep_preserves_presence dv h)

theorem group_complete (devices : List Device) :
    ∀ dev ∈ devices,
      ∃ dm, assocGet (groupDevicesByUser devices) dev.userId = some dm ∧
        (assocGet dm dev.deviceId).isSome := by
  suffices h : ∀ (l : List Device) (acc), ∀ dev ∈ l,
      ∃ dm, assocGet (l.foldl groupStep acc) dev.userId = some dm ∧
        (assocGet dm dev.deviceId).isSome by
    intro dev hdev
    exact h devices [] dev hdev
  intro l
  induction l with
  | nil =>
    intro acc dev hdev
    cases hdev
  | cons dv rest ih =>
    intro acc dev hdev
    rw [List.foldl_cons]
    rcases List.mem_cons.mp hdev with he | he
    · subst he
      exact groupFold_preserves_presence rest _ (groupStep_establishes acc dev)
    · exact ih _ dev he

theorem otkTargets_prov (verify : String → String → String → KeySection → Bool)
    (u : String) (G : List (String × List (String × Device))) :
    ∀ (sec : List (String × List (String × KeySection))) (ts : List EncryptionTarget),
      otkTargetsForUser verify u G sec = .ok ts →
      ∀ t ∈ ts, ∃ q ∈ sec, ∃ fp ks, q.2.head? = some (fp, ks) ∧
        keyAlgorithmOf fp = OTK_ALGORITHM ∧
        lookupDevice G u q.1 = some t.device ∧
        verify u q.1 t.device.ed25519Key ks = true ∧
        t = EncryptionTarget.fromOTK t.device ks.key := by
  intro sec
  induction sec with
  | nil =>
    intro ts hts t ht
    simp only [otkTargetsForUser, Except.ok.injEq] at hts
    rw [← hts] at ht
    exact absurd ht (List.not_mem_nil t)
  | cons q rest ih =>
    obtain ⟨qid, qsec⟩ := q
    intro ts hts t ht
    cases hh : qsec.head? with
    | none =>
      simp only [otkTargetsForUser, hh] at hts
      exact Except.noConfusion hts
    | some pr =>
      obtain ⟨fp, ks⟩ := pr
      cases hrec : otkTargetsForUser verify u G rest with
      | error e =>
        simp only [otkTargetsForUser, hh, hrec] at hts
        exact Except.noConfusion hts
      | ok ts2 =>
        simp only [otkTargetsForUser, hh, hrec, Except.ok.injEq] at hts
        rw [← hts] at ht
        rcases List.mem_append.mp ht with hmem | hmem
        · by_cases halg : keyAlgorithmOf fp = OTK_ALGORITHM
          · cases hlk : lookupDevice G u qid with
            | none =>
              simp [halg, hlk] at hmem
            | some device =>
              cases hv : verify u qid device.ed25519Key ks with
              | false =>
                simp [halg, hlk, hv] at hmem
              | true =>
                simp [halg, hlk, hv] at hmem
                subst hmem
                exact ⟨(qid, qsec), List.mem_cons_self _ _, fp, ks, hh, halg, hlk, hv, rfl⟩
          · simp [halg] at hmem
        · obtain ⟨q2, hq2, fp2, ks2, hh2, halg2, hlk2, hv2, he2⟩ := ih ts2 hrec t hmem
          exact ⟨q2, List.mem_cons_of_mem _ hq2, fp2, ks2, hh2, halg2, hlk2, hv2, he2⟩

theorem otkTargets_ok_of_nonempty (verify : String → String → String → KeySection → Bool)
    (u : String) (G : List (String × List (String × Device))) :
    ∀ sec : List (String × List (String × KeySection)),
      (∀ q ∈ sec, q.2 ≠ []) →
      ∃ ts, otkTargetsForUser verify u G sec = .ok ts := by
  intro sec
  induction sec with
  | nil =>
    intro _
    exact ⟨[], rfl⟩
  | cons q rest ih =>
    obtain ⟨qid, qsec⟩ := q
    intro hne
    obtain ⟨ts2, hts2⟩ := ih fun r hr => hne r (List.mem_cons_of_mem _ hr)
    cases hh : qsec.head? with
    | none =>
      have : qsec = [] := List.head?_eq_none_iff.mp hh
      exact absurd this (hne (qid, qsec) (List.mem_cons_self _ _))
    | some pr =>
      obtain ⟨fp, ks⟩ := pr
      refine ⟨(if keyAlgorithmOf fp = OTK_ALGORITHM then
        match lookupDevice G u qid with
        | some device =>
          if verify u qid device.ed25519Key ks
          then [EncryptionTarget.fromOTK device ks.key]
          else []
        | none => []
        else []) ++ ts2, ?_⟩
      simp only [otkTargetsForUser, hh, hts2]

theorem verifyAndCreate_prov (verify : String → String → String → KeySection → Bool)
    (G : List (String × List (String × Device))) :
    ∀ (ukm : UserKeyMap) (ts : List EncryptionTarget),
      verifyAndCreateOTKTargets verify ukm G = .ok ts →
      ∀ t ∈ ts, ∃ p ∈ ukm, ∃ q ∈ p.2, ∃ fp ks, q.2.head? = some (fp, ks) ∧
        keyAlgorithmOf fp = OTK_ALGORITHM ∧
        lookupDevice G p.1 q.1 = some t.device ∧
        verify p.1 q.1 t.device.ed25519Key ks = true ∧
        t = EncryptionTarget.fromOTK t.device ks.key := by
  intro ukm
  induction ukm with
  | nil =>
    intro ts hts t ht
    simp only [verifyAndCreateOTKTargets, Except.ok.injEq] at hts
    rw [← hts] at ht
    exact absurd ht (List.not_mem_nil t)
  | cons p rest ih =>
    obtain ⟨pu, psec⟩ := p
    intro ts hts t ht
    cases h1 : otkTargetsForUser verify pu G psec with
    | error e =>
      simp only [verifyAndCreateOTKTargets, h1] at hts
      exact Except.noConfusion hts
    | ok ts1 =>
      cases h2 : verifyAndCreateOTKTargets verify rest G with
      | error e =>
        simp only [verifyAndCreateOTKTargets, h1, h2] at hts
        exact Except.noConfusion hts
      | ok ts2 =>
        simp only [verifyAndCreateOTKTargets, h1, h2, Except.ok.injEq] at hts
        rw [← hts] at ht
        rcases List.mem_append.mp ht with hmem | hmem
        · obtain ⟨q, hq, fp, ks, hh, halg, hlk, hv, he⟩ :=
            otkTargets_prov verify pu G psec ts1 h1 t hmem
          exact ⟨(pu, psec), List.mem_cons_self _ _, q, hq, fp, ks, hh, halg, hlk, hv, he⟩
        · obtain ⟨p2, hp2, q, hq, fp, ks, hh, halg, hlk, hv, he⟩ := ih ts2 h2 t hmem
          exact ⟨p2, List.mem_cons_of_mem _ hp2, q, hq, fp, ks, hh, halg, hlk, hv, he⟩

theorem verifyAndCreate_ok_of_nonempty (verify : String → String → String → KeySection → Bool)
    (G : List (String × List (String × Device))) :
    ∀ ukm : UserKeyMap, (∀ p ∈ ukm, ∀ q ∈ p.2, q.2 ≠ []) →
      ∃ ts, verifyAndCreateOTKTargets verify ukm G = .ok ts := by
  intro ukm
  induction ukm with
  | nil =>
    intro _
    exact ⟨[], rfl⟩
  | cons p rest ih =>
    obtain ⟨pu, psec⟩ := p
    intro hne
    obtain ⟨ts1, hts1⟩ := otkTargets_ok_of_nonempty verify pu G psec
      (fun q hq => hne (pu, psec) (List.mem_cons_self _ _) q hq)
    obtain ⟨ts2, hts2⟩ := ih fun r hr q hq => hne r (List.mem_cons_of_mem _ hr) q hq
    refine ⟨ts1 ++ ts2, ?_⟩
    simp only [verifyAndCreateOTKTargets, hts1, hts2]

theorem head?_take_one {α : Type} (l : List α) : (l.take 1).head? = l.head? := by
  cases l <;> rfl

theorem otkTargets_truncate (verify : String → String → String → KeySection → Bool)
    (u : String) (G : List (String × List (String × Device))) :
    ∀ sec : List (String × List (String × KeySection)),
      otkTargetsForUser verify u G (sec.map fun q => (q.1, q.2.take 1)) =
        otkTargetsForUser verify u G sec := by
  intro sec
  induction sec with
  | nil => rfl
  | cons q rest ih =>
    obtain ⟨qid, qsec⟩ := q
    rw [List.map_cons]
    cases hh : qsec.head? with
    | none =>
      have hh2 : (qsec.take 1).head? = none := by rw [head?_take_one, hh]
      simp only [otkTargetsForUser, hh, hh2]
    | some pr =>
      obtain ⟨fp, ks⟩ := pr
      have hh2 : (qsec.take 1).head? = some (fp, ks) := by rw [head?_take_one, hh]
      simp only [otkTargetsForUser, hh, hh2, ih]

theorem verifyAndCreate_truncate (verify : String → String → String → KeySection → Bool)
    (G : List (String × List (String × Device))) :
    ∀ ukm : UserKeyMap,
      verifyAndCreateOTKTargets verify (truncateFirst ukm) G =
        verifyAndCreateOTKTargets verify ukm G := by
  intro ukm
  induction ukm with
  | nil => rfl
  | cons p rest ih =>
    obtain ⟨pu, psec⟩ := p
    rw [truncateFirst, List.map_cons]
    have hrest : rest.map (fun p => (p.1, p.2.map fun q => (q.1, q.2.take 1))) =
        truncateFirst rest := rfl
    simp only [verifyAndCreateOTKTargets, otkTargets_truncate verify pu G psec, hrest, ih]

/-- C6: a device whose claimed one-time-key entry declares a key algorithm
other than signed_curve25519 (the prefix of the property name before the
colon) or whose entry fails signature verification against the device own
ed25519 key yields no encryption target, hence no session and no message,
and when every device entry of the response is nonempty no exception
propagates from the verification pass. -/
theorem C6_bad_key_silently_dropped
    (verify : String → String → String → KeySection → Bool)
    (devices : List Device) (ukm : UserKeyMap) (u0 d0 : String)
    (hsec : ∀ p ∈ ukm, ∀ q ∈ p.2, q.2 ≠ [])
    (hbad : ∀ p ∈ ukm, p.1 = u0 → ∀ q ∈ p.2, q.1 = d0 → ∀ fp ks,
      q.2.head? = some (fp, ks) →
      keyAlgorithmOf fp ≠ OTK_ALGORITHM ∨
      ∀ dev, lookupDevice (groupDevicesByUser devices) u0 d0 = some dev →
        verify u0 d0 dev.ed25519Key ks = false) :
    ∃ ts, verifyAndCreateOTKTargets verify ukm (groupDevicesByUser devices) = .ok ts ∧
      ∀ t ∈ ts, ¬(t.device.userId = u0 ∧ t.device.deviceId = d0) := by
  obtain ⟨ts, hts⟩ :=
    verifyAndCreate_ok_of_nonempty verify (groupDevicesByUser devices) ukm hsec
  refine ⟨ts, hts, ?_⟩
  rintro t ht ⟨hu, hd⟩
  obtain ⟨p, hp, q, hq, fp, ks, hh, halg, hlk, hv, _⟩ :=
    verifyAndCreate_prov verify (groupDevicesByUser devices) ukm ts hts t ht
  obtain ⟨hwfu, hwfd, _⟩ := lookupDevice_wf hlk
  have hp1 : p.1 = u0 := by rw [← hwfu, hu]
  have hq1 : q.1 = d0 := by rw [← hwfd, hd]
  rcases hbad p hp hp1 q hq hq1 fp ks hh with hc | hc
  · exact hc halg
  · have hf := hc t.device (by rw [← hp1, ← hq1]; exact hlk)
    rw [hp1, hq1] at hv
    rw [hf] at hv
    exact Bool.false_ne_true hv

/-- C6 witness: with a signature verifier that rejects everything, the
verification pass over the carol response succeeds and produces no target
for the carol device CCC1. -/
theorem C6_bad_key_silently_dropped_witness :
    ∃ ts, verifyAndCreateOTKTargets (fun _ _ _ _ => false) carolResponse
        (groupDevicesByUser [devC1]) = .ok ts ∧
      ∀ t ∈ ts, ¬(t.device.userId = "@carol:hs" ∧ t.device.deviceId = "CCC1") :=
  C6_bad_key_silently_dropped (fun _ _ _ _ => false) [devC1] carolResponse
    "@carol:hs" "CCC1" (by decide)
    (fun _ _ _ _ _ _ _ _ _ => Or.inr fun _ _ => rfl)

/-- C10: response entries that were not among the requested devices create
no encryption target — every returned target is one of the requested
devices, found in the request grouping under its own user id and device id —
and only the first key entry listed per device is ever considered: the
result is unchanged when every device entry is truncated to its first
property. -/
theorem C10_response_confined_to_requested
    (verify : String → String → String → KeySection → Bool)
    (devices : List Device) (ukm : UserKeyMap) :
    (∀ ts, verifyAndCreateOTKTargets verify ukm (groupDevicesByUser devices) = .ok ts →
      ∀ t ∈ ts, t.device ∈ devices ∧
        lookupDevice (groupDevicesByUser devices) t.device.userId t.device.deviceId =
          some t.device) ∧
    verifyAndCreateOTKTargets verify (truncateFirst ukm) (groupDevicesByUser devices) =
      verifyAndCreateOTKTargets verify ukm (groupDevicesByUser devices) := by
  constructor
  · intro ts hts t ht
    obtain ⟨p, hp, q, hq, fp, ks, hh, halg, hlk, hv, he⟩ :=
      verifyAndCreate_prov verify (groupDevicesByUser devices) ukm ts hts t ht
    obtain ⟨hwfu, hwfd, hmem⟩ := lookupDevice_wf hlk
    refine ⟨hmem, ?_⟩
    rw [hwfu, hwfd]
    exact hlk
  · exact verifyAndCreate_truncate verify (groupDevicesByUser devices) ukm

/-- C10 witness: the carol response mentions device CCC2, which was not
requested when only CCC1 needs a session; the pass returns exactly the CCC1
target, that target is a requested device, and truncating every entry to its
first property leaves the result unchanged. -/
theorem C10_response_confined_to_requested_witness :
    (∀ t ∈ [EncryptionTarget.fromOTK devC1 "otk1"], t.device ∈ [devC1] ∧
      lookupDevice (groupDevicesByUser [devC1]) t.device.userId t.device.deviceId =
        some t.device) ∧
    verifyAndCreateOTKTargets (fun _ _ _ _ => true) (truncateFirst carolResponse)
        (groupDevicesByUser [devC1]) =
      verifyAndCreateOTKTargets (fun _ _ _ _ => true) carolResponse
        (groupDevicesByUser [devC1]) :=
  ⟨(C10_response_confined_to_requested (fun _ _ _ _ => true) [devC1] carolResponse).1
      [EncryptionTarget.fromOTK devC1 "otk1"] rfl,
   (C10_response_confined_to_requested (fun _ _ _ _ => true) [devC1] carolResponse).2⟩

theorem otk_pairs_complete (devices : List Device) :
    ∀ dev ∈ devices,
      (dev.userId, dev.deviceId) ∈ jPairs (oneTimeKeysObj (groupDevicesByUser devices)) := by
  intro dev hdev
  obtain ⟨dm, hg, hsome⟩ := group_complete devices dev hdev
  obtain ⟨dv, hdv⟩ := Option.isSome_iff_exists.mp hsome
  have hPmem : (dev.userId, dm) ∈ groupDevicesByUser devices := assocGet_eq_some hg
  have hQmem : (dev.deviceId, dv) ∈ dm := assocGet_eq_some hdv
  have hwf := group_wf devices (dev.userId, dm) hPmem (dev.deviceId, dv) hQmem
  simp only [jPairs, oneTimeKeysObj, jObjEntries]
  apply List.mem_flatMap.mpr
  refine ⟨(dev.userId, .obj (dm.map fun q => (q.2.deviceId, .str OTK_ALGORITHM))), ?_, ?_⟩
  · exact List.mem_map.mpr ⟨(dev.userId, dm), hPmem, rfl⟩
  · apply List.mem_map.mpr
    refine ⟨(dv.deviceId, .str OTK_ALGORITHM), ?_, ?_⟩
    · exact List.mem_map.mpr ⟨(dev.deviceId, dv), hQmem, rfl⟩
    · show (dev.userId, dv.deviceId) = (dev.userId, dev.deviceId)
      rw [hwf.2.1]

theorem otk_pairs_sound (devices : List Device) :
    ∀ pr ∈ jPairs (oneTimeKeysObj (groupDevicesByUser devices)),
      ∃ dev ∈ devices, dev.userId = pr.1 ∧ dev.deviceId = pr.2 := by
  intro pr hpr
  simp only [jPairs, oneTimeKeysObj, jObjEntries] at hpr
  obtain ⟨pp, hpp, hin⟩ := List.mem_flatMap.mp hpr
  obtain ⟨p, hp, hfp⟩ := List.mem_map.mp hpp
  subst hfp
  obtain ⟨qq, hqq, hq⟩ := List.mem_map.mp hin
  obtain ⟨q, hq2, hfq⟩ := List.mem_map.mp hqq
  subst hfq
  subst hq
  have hwf := group_wf devices p hp q hq2
  exact ⟨q.2, hwf.2.2, hwf.1, rfl⟩

theorem pairs_fst_mem {G : List (String × List (String × Device))}
    {x : String × String}
    (hx : x ∈ jPairs (oneTimeKeysObj G)) : x.1 ∈ G.map Prod.fst := by
  simp only [jPairs, oneTimeKeysObj, jObjEntries] at hx
  obtain ⟨pp, hpp, hin⟩ := List.mem_flatMap.mp hx
  obtain ⟨p, hp, hfp⟩ := List.mem_map.mp hpp
  subst hfp
  obtain ⟨qq, hqq, hq⟩ := List.mem_map.mp hin
  subst hq
  exact List.mem_map.mpr ⟨p, hp, rfl⟩

theorem otk_pairs_nodup (G : List (String × List (String × Device)))
    (houter : (G.map Prod.fst).Nodup)
    (hinner : ∀ p ∈ G, (p.2.map Prod.fst).Nodup)
    (hwf : ∀ p ∈ G, ∀ q ∈ p.2, q.2.deviceId = q.1) :
    (jPairs (oneTimeKeysObj G)).Nodup := by
  induction G with
  | nil => simp [jPairs, oneTimeKeysObj, jObjEntries]
  | cons p rest ih =>
    rw [List.map_cons, List.nodup_cons] at houter
    have hrest : (jPairs (oneTimeKeysObj rest)).Nodup :=
      ih houter.2 (fun r hr => hinner r (List.mem_cons_of_mem _ hr))
        (fun r hr q hq => hwf r (List.mem_cons_of_mem _ hr) q hq)
    simp only [jPairs, oneTimeKeysObj, jObjEntries, List.map_cons, List.flatMap_cons]
    apply List.Nodup.append
    · rw [List.map_map]
      have heq : p.2.map ((fun (q : String × JVal) => (p.1, q.1)) ∘
          (fun q => (q.2.deviceId, JVal.str OTK_ALGORITHM))) =
          (p.2.map Prod.fst).map fun d => (p.1, d) := by
        rw [List.map_map]
        apply List.map_congr_left
        intro q hq
        show (p.1, q.2.deviceId) = (p.1, q.1)
        rw [hwf p (List.mem_cons_self p rest) q hq]
      rw [heq]
      exact (hinner p (List.mem_cons_self p rest)).map
        fun a b hab => congrArg Prod.snd hab
    · simpa [jPairs, oneTimeKeysObj, jObjEntries] using hrest
    · intro x hx1 hx2
      obtain ⟨qq, _, hxe⟩ := List.mem_map.mp hx1
      have hx1p : x.1 = p.1 := by rw [← hxe]
      have hx2p : x.1 ∈ rest.map Prod.fst := by
        apply pairs_fst_mem
        simpa [jPairs, oneTimeKeysObj, jObjEntries] using hx2
      rw [hx1p] at hx2p
      exact houter.1 hx2p

theorem otk_values (G : List (String × List (String × Device))) :
    ∀ v ∈ jInnerValues (oneTimeKeysObj G), v = .str OTK_ALGORITHM := by
  intro v hv
  simp only [jInnerValues, oneTimeKeysObj, jObjEntries] at hv
  obtain ⟨pp, hpp, hin⟩ := List.mem_flatMap.mp hv
  obtain ⟨p, hp, hfp⟩ := List.mem_map.mp hpp
  subst hfp
  obtain ⟨qq, hqq, hq⟩ := List.mem_map.mp hin
  obtain ⟨q, hq2, hfq⟩ := List.mem_map.mp hqq
  subst hfq
  subst hq
  rfl

/-- C9 counterexample: the claim request body carries the timeout under the
property name timeout, not timeout_ms as the claim words the JSON object;
for a concrete one-device batch the body has no timeout_ms field and a
timeout field equal to 10000. -/
theorem C9_counterexample_timeout_field :
    jLookup (claimRequestBody [devC1]) "timeout_ms" = none ∧
    jLookup (claimRequestBody [devC1]) "timeout" = some (.num 10000) :=
  ⟨rfl, rfl⟩

/-- C9 (amended): for every nonempty device batch needing new sessions, the
orchestrator issues exactly one key-claim request whose JSON body is
an object with a timeout field fixed at 10000 milliseconds (the claim wrote
the field name as timeout_ms; the code names it timeout) and a
one_time_keys object in which every user id and device id pair of the input
appears exactly once, mapped to signed_curve25519, and which mentions no
other pair. -/
theorem C9_one_claim_request_shape (env : Env) (devices : List Device)
    (hne : devices ≠ []) :
    (claimOneTimeKeys env devices).1 = [claimRequestBody devices] ∧
    claimRequestBody devices =
      .obj [("timeout", .num 10000),
            ("one_time_keys", oneTimeKeysObj (groupDevicesByUser devices))] ∧
    (∀ dev ∈ devices, (dev.userId, dev.deviceId) ∈
        jPairs (oneTimeKeysObj (groupDevicesByUser devices))) ∧
    (∀ pr ∈ jPairs (oneTimeKeysObj (groupDevicesByUser devices)),
        ∃ dev ∈ devices, dev.userId = pr.1 ∧ dev.deviceId = pr.2) ∧
    (jPairs (oneTimeKeysObj (groupDevicesByUser devices))).Nodup ∧
    (∀ v ∈ jInnerValues (oneTimeKeysObj (groupDevicesByUser devices)),
        v = .str "signed_curve25519") := by
  refine ⟨rfl, rfl, otk_pairs_complete devices, otk_pairs_sound devices, ?_, ?_⟩
  · obtain ⟨houter, hinner⟩ := group_nodup devices
    exact otk_pairs_nodup (groupDevicesByUser devices) houter hinner
      fun p hp q hq => (group_wf devices p hp q hq).2.1
  · exact otk_values (groupDevicesByUser devices)

/-- C9 witness: the request shape at a concrete two-device batch. -/
theorem C9_one_claim_request_shape_witness :
    (claimOneTimeKeys envCreateOk [devC1, devC2]).1 = [claimRequestBody [devC1, devC2]] ∧
    claimRequestBody [devC1, devC2] =
      .obj [("timeout", .num 10000),
            ("one_time_keys", oneTimeKeysObj (groupDevicesByUser [devC1, devC2]))] ∧
    (∀ dev ∈ [devC1, devC2], (dev.userId, dev.deviceId) ∈
        jPairs (oneTimeKeysObj (groupDevicesByUser [devC1, devC2]))) ∧
    (∀ pr ∈ jPairs (oneTimeKeysObj (groupDevicesByUser [devC1, devC2])),
        ∃ dev ∈ [devC1, devC2], dev.userId = pr.1 ∧ dev.deviceId = pr.2) ∧
    (jPairs (oneTimeKeysObj (groupDevicesByUser [devC1, devC2]))).Nodup ∧
    (∀ v ∈ jInnerValues (oneTimeKeysObj (groupDevicesByUser [devC1, devC2])),
        v = .str "signed_curve25519") :=
  C9_one_claim_request_shape envCreateOk [devC1, devC2] (by decide)

theorem disposeAll_cons (t : EncryptionTarget) (rest : List EncryptionTarget)
    (c : CryptoState) : disposeAll (t :: rest) c = disposeAll rest (disposeTarget t c) :=
  rfl

theorem disposeAll_freeCounts (ts : List EncryptionTarget) :
    ∀ (c : CryptoState) (h : Nat),
      (disposeAll ts c).freeCounts h =
        c.freeCounts h + (ts.filterMap EncryptionTarget.session).count h := by
  induction ts with
  | nil =>
    intro c h
    simp [disposeAll]
  | cons t rest ih =>
    intro c h
    rw [disposeAll_cons, ih]
    cases hts : t.session with
    | none =>
      simp [disposeTarget, hts, List.filterMap_cons]
    | some h2 =>
      simp only [disposeTarget, hts, List.filterMap_cons, freeSession, List.count_cons]
      by_cases hh : h = h2
      · subst hh
        simp
        omega
      · simp only [if_neg hh, show (h2 == h) = false by simpa using fun he => hh he.symm,
          Bool.false_eq_true, if_false]
        omega

theorem disposeAll_nextSession (ts : List EncryptionTarget) :
    ∀ c : CryptoState, (disposeAll ts c).nextSession = c.nextSession := by
  induction ts with
  | nil =>
    intro c
    rfl
  | cons t rest ih =>
    intro c
    rw [disposeAll_cons, ih]
    cases hts : t.session with
    | none => simp [disposeTarget, hts]
    | some h2 => simp [disposeTarget, hts, freeSession]

theorem filterMap_session_set :
    ∀ (ts : List EncryptionTarget) (i : Nat) (t : EncryptionTarget) (h : Nat),
      ts[i]? = some t → t.session = none → ∀ h2 : Nat,
      ((ts.set i { t with session := some h }).filterMap EncryptionTarget.session).count h2 =
        (ts.filterMap EncryptionTarget.session).count h2 + (if h2 = h then 1 else 0) := by
  intro ts
  induction ts with
  | nil =>
    intro i t h hget
    simp at hget
  | cons t0 rest ih =>
    intro i t h hget hnone h2
    cases i with
    | zero =>
      rw [List.getElem?_cons_zero] at hget
      have ht0 : t0 = t := Option.some.inj hget
      subst ht0
      rw [List.set_cons_zero]
      rw [List.filterMap_cons, List.filterMap_cons, hnone]
      change (h :: rest.filterMap EncryptionTarget.session).count h2 =
        (rest.filterMap EncryptionTarget.session).count h2 + (if h2 = h then 1 else 0)
      rw [List.count_cons]
      by_cases hh : h2 = h
      · subst hh
        simp
      · simp [hh, show (h == h2) = false by simpa using fun he => hh he.symm]
    | succ n =>
      rw [List.getElem?_cons_succ] at hget
      rw [List.set_cons_succ]
      rw [List.filterMap_cons, List.filterMap_cons]
      cases ht0 : t0.session with
      | none => exact ih n t h hget hnone h2
      | some h3 =>
        rw [List.count_cons, List.count_cons, ih n t h hget hnone h2]
        omega

theorem assignOutbound_post (createOk : String → Bool) :
    ∀ (ts : List EncryptionTarget) (c : CryptoState) (as : List Nat),
      (∀ t ∈ ts, t.session = none) →
      (assignOutboundSessions createOk ts c as).crypto.freeCounts = c.freeCounts ∧
      c.nextSession ≤ (assignOutboundSessions createOk ts c as).crypto.nextSession ∧
      (∀ t ∈ (assignOutboundSessions createOk ts c as).targets, ∀ h,
        t.session = some h →
          c.nextSession ≤ h ∧ h < (assignOutboundSessions createOk ts c as).crypto.nextSession) ∧
      (∀ t ∈ (assignOutboundSessions createOk ts c as).targets,
        ∃ t0 ∈ ts, t.device = t0.device) := by
  intro ts
  induction ts with
  | nil =>
    intro c as _
    refine ⟨rfl, le_refl _, ?_, ?_⟩
    · intro t ht
      exact absurd ht (List.not_mem_nil t)
    · intro t ht
      exact absurd ht (List.not_mem_nil t)
  | cons t0 rest ih =>
    intro c as hnone
    cases hok : createOk t0.device.curve25519Key with
    | false =>
      have hr : assignOutboundSessions createOk (t0 :: rest) c as = ⟨t0 :: rest, c, as, false⟩ := by
        rw [assignOutboundSessions, hok]
        simp
      rw [hr]
      refine ⟨rfl, le_refl _, ?_, ?_⟩
      · intro t ht h hsess
        rw [hnone t ht] at hsess
        exact Option.noConfusion hsess
      · intro t ht
        exact ⟨t, ht, rfl⟩
    | true =>
      have hrest := ih { c with nextSession := c.nextSession + 1 }
        (as ++ [c.nextSession]) (fun u hu => hnone u (List.mem_cons_of_mem _ hu))
      have hr : assignOutboundSessions createOk (t0 :: rest) c as =
          ⟨{ t0 with session := some c.nextSession } ::
              (assignOutboundSessions createOk rest
                { c with nextSession := c.nextSession + 1 } (as ++ [c.nextSession])).targets,
            (assignOutboundSessions createOk rest
                { c with nextSession := c.nextSession + 1 } (as ++ [c.nextSession])).crypto,
            (assignOutboundSessions createOk rest
                { c with nextSession := c.nextSession + 1 } (as ++ [c.nextSession])).assigned,
            (assignOutboundSessions createOk rest
                { c with nextSession := c.nextSession + 1 } (as ++ [c.nextSession])).ok⟩ := by
        rw [assignOutboundSessions, hok]
        simp [allocSession]
      rw [hr]
      obtain ⟨hf, hle, hsess, hdev⟩ := hrest
      refine ⟨hf, le_trans (Nat.le_succ _) hle, ?_, ?_⟩
      · intro t ht h hsome
        rcases List.mem_cons.mp ht with he | he
        · subst he
          have hh : h = c.nextSession := by
            have := hsome
            simp only at this
            exact (Option.some.inj this).symm
          subst hh
          exact ⟨le_refl _, lt_of_lt_of_le (Nat.lt_succ_self _) hle⟩
        · obtain ⟨h1, h2⟩ := hsess t he h hsome
          exact ⟨le_trans (Nat.le_succ _) h1, h2⟩
      · intro t ht
        rcases List.mem_cons.mp ht with he | he
        · subst he
          exact ⟨t0, List.mem_cons_self _ _, rfl⟩
        · obtain ⟨u, hu, he2⟩ := hdev t he
          exact ⟨u, List.mem_cons_of_mem _ hu, he2⟩

theorem claimTargets_post (env : Env) (dws : List Device) (ts : List EncryptionTarget)
    (h : (claimOneTimeKeys env dws).2 = .ok ts) :
    ∀ t ∈ ts, t.device ∈ dws ∧ t.session = none := by
  simp only [claimOneTimeKeys] at h
  by_cases hc : env.claimOk
  · rw [if_pos hc] at h
    intro t ht
    obtain ⟨p, hp, q, hq, fp, ks, hh, halg, hlk, hv, he⟩ :=
      verifyAndCreate_prov env.verify (groupDevicesByUser dws) env.oneTimeKeysResponse
        ts h t ht
    obtain ⟨_, _, hmem⟩ := lookupDevice_wf hlk
    refine ⟨hmem, ?_⟩
    rw [he]
    rfl
  · rw [if_neg hc] at h
    exact absurd h (by simp)

theorem storeSessionsGo_prov (writeOk : SessionRecord → Bool) (pickleKey : String)
    (timestamp : Nat) :
    ∀ (ts : List EncryptionTarget) (acc recs : List SessionRecord),
      storeSessionsGo writeOk pickleKey timestamp ts acc = .ok recs →
      ∀ r ∈ recs, r ∈ acc ∨ ∃ t ∈ ts, r.deviceCurve25519Key = t.device.curve25519Key := by
  intro ts
  induction ts with
  | nil =>
    intro acc recs hgo r hr
    simp only [storeSessionsGo, Except.ok.injEq] at hgo
    rw [← hgo] at hr
    exact Or.inl hr
  | cons t rest ih =>
    intro acc recs hgo r hr
    cases hts : t.session with
    | none =>
      rw [storeSessionsGo, hts] at hgo
      exact Except.noConfusion hgo
    | some h2 =>
      simp only [storeSessionsGo, hts] at hgo
      cases hw : writeOk (createSessionEntry h2 t.device.curve25519Key timestamp pickleKey) with
      | false =>
        rw [hw] at hgo
        simp only [Bool.false_eq_true, if_false] at hgo
        exact Except.noConfusion hgo
      | true =>
        rw [if_pos hw] at hgo
        rcases ih _ recs hgo r hr with hin | hin
        · rcases List.mem_append.mp hin with h3 | h3
          · exact Or.inl h3
          · rw [List.mem_singleton.mp h3]
            exact Or.inr ⟨t, List.mem_cons_self _ _, rfl⟩
        · obtain ⟨u, hu, he⟩ := hin
          exact Or.inr ⟨u, List.mem_cons_of_mem _ hu, he⟩

theorem existingTargets_shape (g : String → List String) (ds : List Device) :
    ∀ t ∈ existingTargetsOf g ds,
      t.session = none ∧ (g t.device.curve25519Key).isEmpty = false := by
  intro t ht
  simp only [existingTargetsOf] at ht
  obtain ⟨d, hd, hf⟩ := List.mem_filterMap.mp ht
  by_cases he : (g d.curve25519Key).isEmpty
  · rw [if_pos he] at hf
    exact Option.noConfusion hf
  · rw [if_neg he] at hf
    cases ho : findFirstSessionId (g d.curve25519Key) with
    | none =>
      rw [ho] at hf
      exact Option.noConfusion hf
    | some sid =>
      rw [ho] at hf
      have ht2 : EncryptionTarget.fromSessionId d sid = t := Option.some.inj hf
      rw [← ht2]
      exact ⟨rfl, by simpa using he⟩

theorem loadFold_main (env : Env) (L : Nat) :
    ∀ (sched : List Nat) (st : LoadState) (base : Nat),
      st.targets.length = L →
      sched.Nodup →
      (∀ i ∈ sched, i < L) →
      (∀ i ∈ sched, ∀ hi : i < st.targets.length, (st.targets.get ⟨i, hi⟩).session = none) →
      (st.failed = true ∨ ∃ i ∈ sched, ∃ hi : i < st.targets.length,
        loadOutcomeFails env (st.targets.get ⟨i, hi⟩) = true) →
      base ≤ st.crypto.nextSession →
      (∀ h ∈ st.assigned, base ≤ h ∧ h < st.crypto.nextSession) →
      (st.failed = true → ∀ h ∈ st.assigned, st.crypto.freeCounts h = 1) →
      (st.failed = false →
        (∀ h ∈ st.assigned, st.crypto.freeCounts h = 0) ∧
        (∀ h : Nat, st.crypto.nextSession ≤ h → st.crypto.freeCounts h = 0) ∧
        (∀ h ∈ st.assigned, (st.targets.filterMap EncryptionTarget.session).count h = 1) ∧
        (∀ h : Nat, h ∉ st.assigned →
          (st.targets.filterMap EncryptionTarget.session).count h = 0)) →
      (sched.foldl (processLoadCompletion env) st).failed = true ∧
      (∀ h ∈ (sched.foldl (processLoadCompletion env) st).assigned,
        (sched.foldl (processLoadCompletion env) st).crypto.freeCounts h = 1 ∧ base ≤ h) := by
  intro sched
  induction sched with
  | nil =>
    intro st base hlen hnodup hbound hnone hev hbase hass hfailed hnotfailed
    rcases hev with hf | ⟨i, hi, _⟩
    · exact ⟨hf, fun h hh => ⟨hfailed hf h hh, (hass h hh).1⟩⟩
    · exact absurd hi (List.not_mem_nil i)
  | cons i rest ih =>
    intro st base hlen hnodup hbound hnone hev hbase hass hfailed hnotfailed
    rw [List.foldl_cons]
    have hinotin : i ∉ rest := (List.nodup_cons.mp hnodup).1
    have hnodup2 : rest.Nodup := (List.nodup_cons.mp hnodup).2
    have hbound2 : ∀ j ∈ rest, j < L := fun j hj => hbound j (List.mem_cons_of_mem _ hj)
    have hnone2 : ∀ j ∈ rest, ∀ hj : j < st.targets.length,
        (st.targets.get ⟨j, hj⟩).session = none :=
      fun j hj => hnone j (List.mem_cons_of_mem _ hj)
    cases hstf : st.failed with
    | true =>
      have hstep : processLoadCompletion env st i = st := by
        rw [processLoadCompletion, hstf]
        simp
      rw [hstep]
      exact ih st base hlen hnodup2 hbound2 hnone2 (Or.inl hstf) hbase hass hfailed hnotfailed
    | false =>
      have hfb := hnotfailed hstf
      have hiL : i < L := hbound i (List.mem_cons_self i rest)
      have hiL2 : i < st.targets.length := by rw [hlen]; exact hiL
      have hget : st.targets[i]? = some (st.targets.get ⟨i, hiL2⟩) :=
        List.getElem?_eq_getElem hiL2
      have htnone : (st.targets.get ⟨i, hiL2⟩).session = none :=
        hnone i (List.mem_cons_self i rest) hiL2
      have hevrest : (∀ hjf2 : loadOutcomeFails env (st.targets.get ⟨i, hiL2⟩) = false,
          ∃ j ∈ rest, ∃ hj : j < st.targets.length,
            loadOutcomeFails env (st.targets.get ⟨j, hj⟩) = true) := by
        intro hjf2
        rcases hev with hf | ⟨j, hj, hjL, hjf⟩
        · rw [hstf] at hf
          exact Bool.noConfusion hf
        · rcases List.mem_cons.mp hj with hje | hje
          · subst hje
            have : loadOutcomeFails env (st.targets.get ⟨j, hjL⟩) = false := hjf2
            rw [this] at hjf
            exact Bool.noConfusion hjf
          · exact ⟨j, hje, hjL, hjf⟩
      cases hsid : (st.targets.get ⟨i, hiL2⟩).sessionId with
      | none =>
        have hstep : processLoadCompletion env st i = st := by
          rw [processLoadCompletion, hstf]
          simp only [Bool.false_eq_true, if_false, hget, hsid]
        rw [hstep]
        have hfails : loadOutcomeFails env (st.targets.get ⟨i, hiL2⟩) = false := by
          rw [loadOutcomeFails, hsid]
        exact ih st base hlen hnodup2 hbound2 hnone2 (Or.inr (hevrest hfails)) hbase hass
          hfailed hnotfailed
      | some sid =>
        cases hgs : env.getSession (st.targets.get ⟨i, hiL2⟩).device.curve25519Key sid with
        | error e =>
          have hstep : processLoadCompletion env st i =
              { st with crypto := disposeAll st.targets st.crypto, failed := true } := by
            rw [processLoadCompletion, hstf]
            simp only [Bool.false_eq_true, if_false, hget, hsid, hgs]
          rw [hstep]
          apply ih { st with crypto := disposeAll st.targets st.crypto, failed := true }
            base hlen hnodup2 hbound2 hnone2 (Or.inl rfl)
          · show base ≤ (disposeAll st.targets st.crypto).nextSession
            rw [disposeAll_nextSession]
            exact hbase
          · intro h hh
            show base ≤ h ∧ h < (disposeAll st.targets st.crypto).nextSession
            rw [disposeAll_nextSession]
            exact hass h hh
          · intro _ h hh
            show (disposeAll st.targets st.crypto).freeCounts h = 1
            rw [disposeAll_freeCounts, hfb.1 h hh, hfb.2.2.1 h hh]
          · intro hcontra
            exact absurd hcontra (by simp)
        | ok oentry =>
          cases oentry with
          | none =>
            have hstep : processLoadCompletion env st i = st := by
              rw [processLoadCompletion, hstf]
              simp only [Bool.false_eq_true, if_false, hget, hsid, hgs]
            rw [hstep]
            have hfails : loadOutcomeFails env (st.targets.get ⟨i, hiL2⟩) = false := by
              simp only [loadOutcomeFails, hsid, hgs]
            exact ih st base hlen hnodup2 hbound2 hnone2 (Or.inr (hevrest hfails)) hbase hass
              hfailed hnotfailed
          | some pickled =>
            cases hup : env.unpickleOk pickled with
            | false =>
              have hstep : processLoadCompletion env st i =
                  { st with
                    crypto := disposeAll st.targets
                      { st.crypto with nextSession := st.crypto.nextSession + 1 },
                    failed := true } := by
                rw [processLoadCompletion, hstf]
                simp only [Bool.false_eq_true, if_false, hget, hsid, hgs, allocSession, hup]
              rw [hstep]
              apply ih { st with
                  crypto := disposeAll st.targets
                    { st.crypto with nextSession := st.crypto.nextSession + 1 },
                  failed := true }
                base hlen hnodup2 hbound2 hnone2 (Or.inl rfl)
              · show base ≤ (disposeAll st.targets _).nextSession
                rw [disposeAll_nextSession]
                exact le_trans hbase (Nat.le_succ _)
              · intro h hh
                show base ≤ h ∧ h < (disposeAll st.targets _).nextSession
                rw [disposeAll_nextSession]
                exact ⟨(hass h hh).1, Nat.lt_succ_of_lt (hass h hh).2⟩
              · intro _ h hh
                show (disposeAll st.targets _).freeCounts h = 1
                rw [disposeAll_freeCounts]
                show st.crypto.freeCounts h + _ = 1
                rw [hfb.1 h hh, hfb.2.2.1 h hh]
              · intro hcontra
                exact absurd hcontra (by simp)
            | true =>
              have hstep : processLoadCompletion env st i =
                  { st with
                    targets := st.targets.set i
                      { st.targets.get ⟨i, hiL2⟩ with session := some st.crypto.nextSession },
                    crypto := { st.crypto with nextSession := st.crypto.nextSession + 1 },
                    assigned := st.assigned ++ [st.crypto.nextSession] } := by
                rw [processLoadCompletion, hstf]
                simp only [Bool.false_eq_true, if_false, hget, hsid, hgs, allocSession, hup,
                  if_true]
              rw [hstep]
              have hcount := filterMap_session_set st.targets i (st.targets.get ⟨i, hiL2⟩)
                st.crypto.nextSession hget htnone
              have hfails : loadOutcomeFails env (st.targets.get ⟨i, hiL2⟩) = false := by
                simp only [loadOutcomeFails, hsid, hgs, hup, Bool.not_true]
              apply ih { st with
                  targets := st.targets.set i
                    { st.targets.get ⟨i, hiL2⟩ with session := some st.crypto.nextSession },
                  crypto := { st.crypto with nextSession := st.crypto.nextSession + 1 },
                  assigned := st.assigned ++ [st.crypto.nextSession] }
                base
              · show (st.targets.set i _).length = L
                rw [List.length_set]
                exact hlen
              · exact hnodup2
              · exact hbound2
              · intro j hj hjlen
                have hne : i ≠ j := fun he => hinotin (he ▸ hj)
                have hjlen2 : j < st.targets.length := by
                  have := hjlen
                  rw [List.length_set] at this
                  exact this
                rw [List.get_set_ne hne]
                exact hnone2 j hj hjlen2
              · refine Or.inr ?_
                obtain ⟨j, hj, hjL, hjf⟩ := hevrest hfails
                have hne : i ≠ j := fun he => hinotin (he ▸ hj)
                refine ⟨j, hj, ?_, ?_⟩
                · rw [List.length_set]
                  exact hjL
                · rw [List.get_set_ne hne]
                  exact hjf
              · exact le_trans hbase (Nat.le_succ _)
              · intro h hh
                rcases List.mem_append.mp hh with h2 | h2
                · exact ⟨(hass h h2).1, Nat.lt_succ_of_lt (hass h h2).2⟩
                · rw [List.mem_singleton.mp h2]
                  exact ⟨hbase, Nat.lt_succ_self _⟩
              · intro hcontra
                have hc2 : st.failed = true := hcontra
                rw [hstf] at hc2
                exact Bool.noConfusion hc2
              · intro _
                refine ⟨?_, ?_, ?_, ?_⟩
                · intro h hh
                  rcases List.mem_append.mp hh with h2 | h2
                  · exact hfb.1 h h2
                  · rw [List.mem_singleton.mp h2]
                    exact hfb.2.1 st.crypto.nextSession (le_refl _)
                · intro h hge
                  exact hfb.2.1 h (Nat.le_of_succ_le hge)
                · intro h hh
                  rcases List.mem_append.mp hh with h2 | h2
                  · rw [hcount h, hfb.2.2.1 h h2,
                      if_neg (fun he => absurd ((hass h h2).2) (by rw [he]; exact lt_irrefl _))]
                  · rw [List.mem_singleton.mp h2]
                    have hnot : st.crypto.nextSession ∉ st.assigned := fun hin =>
                      absurd (hass st.crypto.nextSession hin).2 (lt_irrefl _)
                    rw [hcount st.crypto.nextSession, hfb.2.2.2 st.crypto.nextSession hnot,
                      if_pos rfl]
                · intro h hnotin
                  have h1 : h ∉ st.assigned := fun hin =>
                    hnotin (List.mem_append.mpr (Or.inl hin))
                  have h2 : h ≠ st.crypto.nextSession := fun he =>
                    hnotin (List.mem_append.mpr (Or.inr (List.mem_singleton.mpr he)))
                  rw [hcount h, hfb.2.2.2 h h1, if_neg h2]

theorem loadSessions_post (env : Env) (targets : List EncryptionTarget) (c0 : CryptoState)
    (hperm : env.loadSchedule.Perm (List.range targets.length))
    (hnone : ∀ t ∈ targets, t.session = none)
    (hfail : ∃ t ∈ targets, loadOutcomeFails env t = true)
    (hbase : ∀ h, c0.nextSession ≤ h → c0.freeCounts h = 0) :
    (loadSessions env targets env.loadSchedule c0).1 = .error () ∧
    ∀ h ∈ (loadSessions env targets env.loadSchedule c0).2.assigned,
      (loadSessions env targets env.loadSchedule c0).2.crypto.freeCounts h = 1 ∧
        c0.nextSession ≤ h := by
  have hev : ∃ i ∈ env.loadSchedule, ∃ hi : i < targets.length,
      loadOutcomeFails env (targets.get ⟨i, hi⟩) = true := by
    obtain ⟨t, htmem, htf⟩ := hfail
    obtain ⟨⟨i, hi⟩, hget⟩ := List.mem_iff_get.mp htmem
    refine ⟨i, hperm.mem_iff.mpr (List.mem_range.mpr hi), hi, ?_⟩
    rw [hget]
    exact htf
  have hmain := loadFold_main env targets.length env.loadSchedule
    ⟨targets, c0, [], false⟩ c0.nextSession rfl
    (hperm.nodup_iff.mpr (List.nodup_range _))
    (fun i hi => List.mem_range.mp (hperm.mem_iff.mp hi))
    (fun i _ hlt => hnone _ (targets.get_mem i hlt))
    (Or.inr hev)
    (le_refl _)
    (fun h hh => absurd hh (List.not_mem_nil h))
    (fun hc => absurd hc (by simp))
    (fun _ => ⟨fun h hh => absurd hh (List.not_mem_nil h), hbase,
      fun h hh => absurd hh (List.not_mem_nil h),
      fun h _ => by
        rw [List.filterMap_eq_nil_iff.mpr hnone]
        rfl⟩)
  obtain ⟨hfailfin, hcounts⟩ := hmain
  constructor
  · show (if (List.foldl (processLoadCompletion env)
        ⟨targets, c0, [], false⟩ env.loadSchedule).failed then
          (Except.error () : Except Unit Unit) else .ok ()) = .error ()
    rw [if_pos hfailfin]
  · intro h hh
    exact hcounts h hh

theorem createNewSessions_post (env : Env) (pickleKey : String) (timestamp : Nat)
    (dws : List Device) (c0 : CryptoState) (phase : CreateResult)
    (hok : createNewSessions env pickleKey timestamp dws c0 = .ok phase) :
    (∀ t ∈ phase.targets, ∀ h2, t.session = some h2 → h2 < phase.crypto.nextSession) ∧
    c0.nextSession ≤ phase.crypto.nextSession ∧
    (∀ h2, phase.crypto.nextSession ≤ h2 → phase.crypto.freeCounts h2 = c0.freeCounts h2) ∧
    (∀ recs, phase.pending = some recs →
      ∀ r ∈ recs, ∃ d ∈ dws, r.deviceCurve25519Key = d.curve25519Key) := by
  cases hclaim : (claimOneTimeKeys env dws).2 with
  | error e =>
    simp only [createNewSessions, hclaim] at hok
    exact Except.noConfusion hok
  | ok newTargets =>
    simp only [createNewSessions, hclaim] at hok
    have hcl := claimTargets_post env dws newTargets hclaim
    obtain ⟨hfree, hle, hsess, hdev⟩ := assignOutbound_post env.createOk newTargets c0 []
      (fun t ht => (hcl t ht).2)
    cases hro : (assignOutboundSessions env.createOk newTargets c0 []).ok with
    | true =>
      rw [if_pos hro] at hok
      cases hgo : storeSessionsGo env.writeOk pickleKey timestamp
          (assignOutboundSessions env.createOk newTargets c0 []).targets [] with
      | ok recs =>
        rw [hgo] at hok
        have hphase := Except.ok.inj hok
        subst hphase
        refine ⟨?_, hle, ?_, ?_⟩
        · intro t ht h2 hs2
          exact (hsess t ht h2 hs2).2
        · intro h2 _
          rw [hfree]
        · intro recs2 hp r2 hr2
          have hre : recs = recs2 := Option.some.inj hp
          subst hre
          rcases storeSessionsGo_prov env.writeOk pickleKey timestamp
              (assignOutboundSessions env.createOk newTargets c0 []).targets [] recs hgo
              r2 hr2 with hin | ⟨t, ht, he⟩
          · exact absurd hin (List.not_mem_nil r2)
          · obtain ⟨t0, ht0, hdev2⟩ := hdev t ht
            refine ⟨t0.device, (hcl t0 ht0).1, ?_⟩
            rw [he, hdev2]
      | error e =>
        rw [hgo] at hok
        have hphase := Except.ok.inj hok
        subst hphase
        refine ⟨?_, hle, ?_, ?_⟩
        · intro t ht h2 hs2
          exact (hsess t ht h2 hs2).2
        · intro h2 _
          rw [hfree]
        · intro recs2 hp
          exact absurd hp (by simp)
    | false =>
      rw [if_neg (by simp [hro])] at hok
      have hphase := Except.ok.inj hok
      subst hphase
      refine ⟨?_, ?_, ?_, ?_⟩
      · intro t ht h2 hs2
        show h2 < (disposeAll _ _).nextSession
        rw [disposeAll_nextSession]
        exact (hsess t ht h2 hs2).2
      · show c0.nextSession ≤ (disposeAll _ _).nextSession
        rw [disposeAll_nextSession]
        exact hle
      · intro h2 hge
        show (disposeAll _ _).freeCounts h2 = c0.freeCounts h2
        rw [disposeAll_nextSession] at hge
        rw [disposeAll_freeCounts]
        have hcz : ((assignOutboundSessions env.createOk newTargets c0 []).targets.filterMap
            EncryptionTarget.session).count h2 = 0 := by
          apply List.count_eq_zero.mpr
          intro hmem
          obtain ⟨t, ht, hs⟩ := List.mem_filterMap.mp hmem
          exact absurd (hsess t ht h2 hs).2 (not_lt.mpr hge)
        rw [hcz, hfree]
        omega
      · intro recs2 hp
        exact absurd hp (by simp)

/-- C4 counterexample: in a mixed call where devC1 needs a new session (claim
and creation succeed) and devA has an existing session whose load throws, the
eager defensive write still commits, so a Session Record for devC1 — a target
of that call — is durably visible although a load of the batch failed and the
call raised; the claim that no Session Record is written for any target of
that call is false. -/
theorem C4_counterexample_eager_record_written :
    (encrypt envMixedLoadFailure "pk" "m.text" (.str "hi") [devC1, devA] 7 [] initCrypto).result
      = .error .storage ∧
    (encrypt envMixedLoadFailure "pk" "m.text" (.str "hi") [devC1, devA] 7 [] initCrypto).store
      = [{ deviceCurve25519Key := "curveC1", sessionId := "0", session := "pk0",
           lastUsed := 7 }] :=
  ⟨rfl, rfl⟩

/-- C4 (amended): if loading any one session of the batch fails, every target
of the load batch that did manage to load a session has its session resource
released exactly once, no newly loaded session stays assigned and unreleased,
the error is re-raised to the caller, and no Session Record is written for
any load-phase target of that call — records for targets whose sessions were
newly created may already have been persisted by the eager defensive write of
the creation phase. -/
theorem C4_load_failure_fail_together (env : Env) (pickleKey msgType : String)
    (content : JVal) (devices : List Device) (timestamp : Nat)
    (store0 : List SessionRecord)
    (hperm : env.loadSchedule.Perm
      (List.range (existingTargetsOf env.getSessionIds devices).length))
    (hfail : ∃ t ∈ existingTargetsOf env.getSessionIds devices,
      loadOutcomeFails env t = true) :
    (∃ e, (encrypt env pickleKey msgType content devices timestamp store0 initCrypto).result
        = .error e) ∧
    (∀ h ∈ (encrypt env pickleKey msgType content devices timestamp store0
        initCrypto).loadAssigned,
      (encrypt env pickleKey msgType content devices timestamp store0
        initCrypto).crypto.freeCounts h = 1) ∧
    (∀ r ∈ (encrypt env pickleKey msgType content devices timestamp store0 initCrypto).store,
      r ∈ store0 ∨ r.deviceCurve25519Key ∉
        (existingTargetsOf env.getSessionIds devices).map
          fun t => t.device.curve25519Key) := by
  cases hcr : (if (devicesWithoutSessionOf env.getSessionIds devices).isEmpty = true
      then (Except.ok ⟨[], initCrypto, [], none⟩ : Except JsError CreateResult)
      else createNewSessions env pickleKey timestamp
        (devicesWithoutSessionOf env.getSessionIds devices) initCrypto) with
  | error e =>
    have hout : encrypt env pickleKey msgType content devices timestamp store0 initCrypto =
        { result := .error e, store := store0, crypto := initCrypto,
          createAssigned := [], loadAssigned := [] } := by
      simp only [encrypt, hcr]
    rw [hout]
    refine ⟨⟨e, rfl⟩, ?_, ?_⟩
    · intro h hh
      exact absurd hh (List.not_mem_nil h)
    · intro r hr
      exact Or.inl hr
  | ok phase =>
    have hpost : (∀ t ∈ phase.targets, ∀ h2, t.session = some h2 →
          h2 < phase.crypto.nextSession) ∧
        initCrypto.nextSession ≤ phase.crypto.nextSession ∧
        (∀ h2, phase.crypto.nextSession ≤ h2 →
          phase.crypto.freeCounts h2 = initCrypto.freeCounts h2) ∧
        (∀ recs, phase.pending = some recs → ∀ r ∈ recs,
          ∃ d ∈ devicesWithoutSessionOf env.getSessionIds devices,
            r.deviceCurve25519Key = d.curve25519Key) := by
      by_cases hdws : (devicesWithoutSessionOf env.getSessionIds devices).isEmpty = true
      · rw [if_pos hdws] at hcr
        have hph := Except.ok.inj hcr
        subst hph
        refine ⟨?_, le_refl _, ?_, ?_⟩
        · intro t ht
          exact absurd ht (List.not_mem_nil t)
        · intro h2 _
          rfl
        · intro recs hp
          exact absurd hp (by simp)
      · rw [if_neg hdws] at hcr
        exact createNewSessions_post env pickleKey timestamp _ initCrypto phase hcr
    obtain ⟨hsess, hle, hfreeeq, hpend⟩ := hpost
    have hbase2 : ∀ h, phase.crypto.nextSession ≤ h → phase.crypto.freeCounts h = 0 := by
      intro h hge
      rw [hfreeeq h hge]
      rfl
    obtain ⟨hlerr, hlcounts⟩ := loadSessions_post env
      (existingTargetsOf env.getSessionIds devices) phase.crypto hperm
      (fun t ht => (existingTargets_shape env.getSessionIds devices t ht).1)
      hfail hbase2
    have hout : encrypt env pickleKey msgType content devices timestamp store0 initCrypto =
        { result := .error .storage,
          store := store0 ++ (phase.pending.getD []),
          crypto := disposeAll phase.targets
            (loadSessions env (existingTargetsOf env.getSessionIds devices)
              env.loadSchedule phase.crypto).2.crypto,
          createAssigned := phase.assigned,
          loadAssigned := (loadSessions env (existingTargetsOf env.getSessionIds devices)
            env.loadSchedule phase.crypto).2.assigned } := by
      simp only [encrypt, hcr, hlerr]
    rw [hout]
    refine ⟨⟨.storage, rfl⟩, ?_, ?_⟩
    · intro h hh
      obtain ⟨hc1, hc2⟩ := hlcounts h hh
      rw [disposeAll_freeCounts]
      have hcz : (phase.targets.filterMap EncryptionTarget.session).count h = 0 := by
        apply List.count_eq_zero.mpr
        intro hmem
        obtain ⟨t, ht, hs⟩ := List.mem_filterMap.mp hmem
        exact absurd (hsess t ht h hs) (not_lt.mpr hc2)
      rw [hcz, hc1]
    · intro r hr
      rcases List.mem_append.mp hr with h1 | h1
      · exact Or.inl h1
      · refine Or.inr ?_
        cases hp : phase.pending with
        | none =>
          rw [hp] at h1
          exact absurd h1 (List.not_mem_nil r)
        | some recs =>
          rw [hp] at h1
          obtain ⟨d, hd, hkey⟩ := hpend recs hp r h1
          intro hmem
          obtain ⟨t, ht, hkey2⟩ := List.mem_map.mp hmem
          have hde : (env.getSessionIds d.curve25519Key).isEmpty = true := by
            simp only [devicesWithoutSessionOf] at hd
            exact (List.mem_filter.mp hd).2
          have hte : (env.getSessionIds t.device.curve25519Key).isEmpty = false :=
            (existingTargets_shape env.getSessionIds devices t ht).2
          have hkk : t.device.curve25519Key = d.curve25519Key := by
            rw [hkey2, hkey]
          rw [hkk, hde] at hte
          exact Bool.noConfusion hte

/-- C4 witness: the fail-together conclusions at the concrete mixed call. -/
theorem C4_load_failure_fail_together_witness :
    (∃ e, (encrypt envMixedLoadFailure "pk" "m.text" (.str "hi") [devC1, devA] 7 []
        initCrypto).result = .error e) ∧
    (∀ h ∈ (encrypt envMixedLoadFailure "pk" "m.text" (.str "hi") [devC1, devA] 7 []
        initCrypto).loadAssigned,
      (encrypt envMixedLoadFailure "pk" "m.text" (.str "hi") [devC1, devA] 7 []
        initCrypto).crypto.freeCounts h = 1) ∧
    (∀ r ∈ (encrypt envMixedLoadFailure "pk" "m.text" (.str "hi") [devC1, devA] 7 []
        initCrypto).store,
      r ∈ ([] : List SessionRecord) ∨ r.deviceCurve25519Key ∉
        (existingTargetsOf envMixedLoadFailure.getSessionIds [devC1, devA]).map
          fun t => t.device.curve25519Key) :=
  C4_load_failure_fail_together envMixedLoadFailure "pk" "m.text" (.str "hi")
    [devC1, devA] 7 [] (by decide) (by decide)
